import Mathlib

/-!
Verification development for the node-catalog extraction and caching engine
of the autopilot MCP server (`src/autopilot/catalog/ast-eval.js`,
`src/autopilot/catalog/parse-nodes-html.ts`, `src/autopilot/catalog/index.ts`,
`src/autopilot/utils.ts`).

The HTML/JS front end (the regex module splitter, the cheerio script
enumeration and the acorn parser) is deterministic text processing; it is
abstracted here as structured input: each module arrives with its name, its
help/template fragments, and, for each registration script block, the syntax
tree data the two walker passes consume (wrapper candidates and the call
expressions in walk order).  Everything downstream — the constrained
evaluator, wrapper discovery and call resolution, the per-type merge, the
final sort, the cache and the search limit logic — is translated function by
function from the source.

JS values that the evaluator and merge can produce are modelled by the
closed algebra `EV`; JS numbers occurring in the claims are integral, so
numeric literals are modelled as `Int`.  String indices are code units,
which for the ASCII material of the claims coincide with `Char` positions.
-/

/-- The value of an acorn `Literal` node (`node.value`). -/
inductive LitVal where
  | str (s : String)
  | num (n : Int)
  | bool (b : Bool)
  | nullL
deriving Repr, DecidableEq

/-- Closed algebra of JS values produced by `evalAst` and flowing through the
catalog builder: JSON-ish data plus the tagged opaque placeholder objects
(`ref`, `expr`, `template`, `func`, `unknown`) and the two JS empty values. -/
inductive EV where
  | undefV
  | nullV
  | str (s : String)
  | num (n : Int)
  | bool (b : Bool)
  | arr (elements : List EV)
  | obj (fields : List (String × EV))
  | ref (name : String)
  | expr (source : String)
  | template (source : String)
  | func (source : String)
  | unknown (typeName : String) (source : String)
deriving Repr

/-- JS truthiness of an `EV` value. -/
def jsTruthy : EV → Bool
  | .undefV => false
  | .nullV => false
  | .str s => !(s = "")
  | .num n => !(n = 0)
  | .bool b => b
  | _ => true

/-- `v == null` in JS terms: `undefined` or `null` (what `??` skips over). -/
def isNullish : EV → Bool
  | .undefV => true
  | .nullV => true
  | _ => false

/-- `typeof v === "object"` (arrays, plain objects, the placeholder objects
and `null` all satisfy it). -/
def isObjectJS : EV → Bool
  | .nullV => true
  | .arr _ => true
  | .obj _ => true
  | .ref _ => true
  | .expr _ => true
  | .template _ => true
  | .func _ => true
  | .unknown _ _ => true
  | _ => false

/-- The JS nullish-coalescing operator `a ?? b`. -/
def jsCoalesce (a b : EV) : EV := if isNullish a then b else a

/-- The JS logical-or operator `a || b` (by truthiness). -/
def jsOr (a b : EV) : EV := if jsTruthy a then a else b

/-- Assoc-list lookup (JS property read on a plain record). -/
def alGet {α : Type} : List (String × α) → String → Option α
  | [], _ => none
  | (k, v) :: rest, key => if k = key then some v else alGet rest key

/-- Assoc-list assignment with JS object semantics: an existing key keeps its
position and gets the new value, a new key is appended. -/
def alSet {α : Type} : List (String × α) → String → α → List (String × α)
  | [], key, v => [(key, v)]
  | (k, v0) :: rest, key, v =>
      if k = key then (k, v) :: rest else (k, v0) :: alSet rest key v

/-- JS property access `v[key]` on an `EV` value (declared fields of the
placeholder objects included); absent properties read as `undefined`. -/
def evGet : EV → String → EV
  | .obj fields, key => (alGet fields key).getD .undefV
  | .arr l, key =>
      match key.toNat? with
      | some i => (l.get? i).getD .undefV
      | none => .undefV
  | .ref n, key =>
      if key = "kind" then .str "ref" else if key = "name" then .str n else .undefV
  | .expr s, key =>
      if key = "kind" then .str "expr" else if key = "source" then .str s else .undefV
  | .template s, key =>
      if key = "kind" then .str "template" else if key = "source" then .str s
      else .undefV
  | .func s, key =>
      if key = "kind" then .str "function" else if key = "source" then .str s
      else .undefV
  | .unknown t s, key =>
      if key = "kind" then .str "unknown" else if key = "type" then .str t
      else if key = "source" then .str s else .undefV
  | _, _ => .undefV

/-- `Object.keys` on an `EV` value. -/
def evKeys : EV → List String
  | .obj fields => fields.map (·.1)
  | .arr l => (List.range l.length).map (fun i => toString i)
  | .ref _ => ["kind", "name"]
  | .expr _ => ["kind", "source"]
  | .template _ => ["kind", "source"]
  | .func _ => ["kind", "source"]
  | .unknown _ _ => ["kind", "type", "source"]
  | _ => []

mutual
/-- JS `String(v)` / `Array.prototype.join` element stringification. -/
def evToString : EV → String
  | .undefV => "undefined"
  | .nullV => "null"
  | .str s => s
  | .num n => toString n
  | .bool b => if b then "true" else "false"
  | .arr l => evToStringList l
  | .obj _ => "[object Object]"
  | .ref _ => "[object Object]"
  | .expr _ => "[object Object]"
  | .template _ => "[object Object]"
  | .func _ => "[object Object]"
  | .unknown _ _ => "[object Object]"

/-- `Array.prototype.toString`: comma-joined elements, empty for nullish. -/
def evToStringList : List EV → String
  | [] => ""
  | [v] => if isNullish v then "" else evToString v
  | v :: rest =>
      (if isNullish v then "" else evToString v) ++ "," ++ evToStringList rest
end

/-- Syntax-tree nodes, mirroring the acorn node kinds that
`evalAst` / the register-call finder inspect.  Every node carries its
`start`/`end` source offsets.  `hole` stands for a `null` slot in an array
literal (elision), `propE` for a `Property` node, `otherE` for any node kind
outside the evaluator's case switch. -/
inductive Ast where
  | lit (v : LitVal) (ps pe : Nat)
  | ident (name : String) (ps pe : Nat)
  | arrayE (elements : List Ast) (ps pe : Nat)
  | hole (ps pe : Nat)
  | objectE (props : List Ast) (ps pe : Nat)
  | propE (computed : Bool) (key : Ast) (value : Ast) (ps pe : Nat)
  | unary (op : String) (argument : Ast) (ps pe : Nat)
  | tmpl (quasis : List (Option String)) (expressions : List Ast) (ps pe : Nat)
  | funcE (ps pe : Nat)
  | arrowE (ps pe : Nat)
  | callE (callee : Ast) (args : List Ast) (ps pe : Nat)
  | memberE (obj : Ast) (property : Ast) (ps pe : Nat)
  | binE (left right : Ast) (ps pe : Nat)
  | logicE (left right : Ast) (ps pe : Nat)
  | condE (test cons alt : Ast) (ps pe : Nat)
  | newE (callee : Ast) (ps pe : Nat)
  | otherE (typeName : String) (ps pe : Nat)
deriving Repr

/-- `node.start`. -/
def Ast.startPos : Ast → Nat
  | .lit _ ps _ => ps
  | .ident _ ps _ => ps
  | .arrayE _ ps _ => ps
  | .hole ps _ => ps
  | .objectE _ ps _ => ps
  | .propE _ _ _ ps _ => ps
  | .unary _ _ ps _ => ps
  | .tmpl _ _ ps _ => ps
  | .funcE ps _ => ps
  | .arrowE ps _ => ps
  | .callE _ _ ps _ => ps
  | .memberE _ _ ps _ => ps
  | .binE _ _ ps _ => ps
  | .logicE _ _ ps _ => ps
  | .condE _ _ _ ps _ => ps
  | .newE _ ps _ => ps
  | .otherE _ ps _ => ps

/-- `node.end`. -/
def Ast.endPos : Ast → Nat
  | .lit _ _ pe => pe
  | .ident _ _ pe => pe
  | .arrayE _ _ pe => pe
  | .hole _ pe => pe
  | .objectE _ _ pe => pe
  | .propE _ _ _ _ pe => pe
  | .unary _ _ _ pe => pe
  | .tmpl _ _ _ pe => pe
  | .funcE _ pe => pe
  | .arrowE _ pe => pe
  | .callE _ _ _ pe => pe
  | .memberE _ _ _ pe => pe
  | .binE _ _ _ pe => pe
  | .logicE _ _ _ pe => pe
  | .condE _ _ _ _ pe => pe
  | .newE _ _ pe => pe
  | .otherE _ _ pe => pe

/-- `sliceSource(src, node)`: `src.slice(node.start, node.end)` with the
guards of the source (an empty source yields the empty string anyway). -/
def sliceSource (src : String) (ps pe : Nat) : String :=
  ⟨(src.data.drop ps).take (pe - ps)⟩

/-- `String(value)` for a literal value (used for literal property keys). -/
def litToString : LitVal → String
  | .str s => s
  | .num n => toString n
  | .bool b => if b then "true" else "false"
  | .nullL => "null"

/-- The literal value as a JS value. -/
def litToEV : LitVal → EV
  | .str s => .str s
  | .num n => .num n
  | .bool b => .bool b
  | .nullL => .nullV

/-- `isPropertyKeyToString` on a non-computed property key node. -/
def propKeyToString : Ast → Option String
  | .ident n _ _ => some n
  | .lit v _ _ => some (litToString v)
  | _ => none

/-- Concatenation of the remaining cooked quasis of a template once the
embedded expressions are exhausted (the tail iterations of the template
loop, in which `i < node.expressions.length` is false). -/
def joinCooked : List (Option String) → String
  | [] => ""
  | q :: rest => (match q with | some s => s | none => "") ++ joinCooked rest

/-- The per-expression step of the template loop: the stringified value for
a literal string/number/boolean (`typeof ev` string, number or boolean),
`none` for everything else (triggering the degrade-to-placeholder exit). -/
def tmplStepVal : EV → Option String
  | .str s => some s
  | .num n => some (toString n)
  | .bool b => some (if b then "true" else "false")
  | _ => none

mutual
/-- `evalAst(node, env, src)`: the constrained, non-executing expression
evaluator (`ast-eval.js`).  Literals map to their value, identifiers resolve
against the binding environment or become `ref` placeholders, arrays and
objects evaluate componentwise, unary `+`/`-`/`!` act on already-literal
values, templates concatenate only when every embedded expression reduces to
a string/number/boolean, functions become `func` placeholders, and every
call / member / binary / logical / conditional / `new` expression degrades
to an `expr` placeholder carrying its source text. -/
def evalAst (node : Ast) (env : List (String × EV)) (src : String) : EV :=
  match node with
  | .hole _ _ => .nullV
  | .lit v _ _ => litToEV v
  | .ident n _ _ =>
      match alGet env n with
      | some v => v
      | none => .ref n
  | .arrayE els _ _ => .arr (evalAstList els env src)
  | .objectE props _ _ => .obj (evalAstProps props env src [])
  | .unary op a ps pe =>
      match evalAst a env src, op with
      | .num n, "-" => .num (-n)
      | .num n, "+" => .num n
      | .bool b, "!" => .bool (!b)
      | _, _ => .expr (sliceSource src ps pe)
  | .tmpl qs exprs ps pe =>
      match evalAstTmpl qs exprs env src "" with
      | some s => .str s
      | none => .template (sliceSource src ps pe)
  | .funcE ps pe => .func (sliceSource src ps pe)
  | .arrowE ps pe => .func (sliceSource src ps pe)
  | .callE _ _ ps pe => .expr (sliceSource src ps pe)
  | .memberE _ _ ps pe => .expr (sliceSource src ps pe)
  | .binE _ _ ps pe => .expr (sliceSource src ps pe)
  | .logicE _ _ ps pe => .expr (sliceSource src ps pe)
  | .condE _ _ _ ps pe => .expr (sliceSource src ps pe)
  | .newE _ ps pe => .expr (sliceSource src ps pe)
  | .propE _ _ _ ps pe => .unknown "Property" (sliceSource src ps pe)
  | .otherE t ps pe => .unknown t (sliceSource src ps pe)
termination_by structural node

/-- Element-wise evaluation of an `ArrayExpression`'s elements. -/
def evalAstList (els : List Ast) (env : List (String × EV)) (src : String) :
    List EV :=
  match els with
  | [] => []
  | e :: rest => evalAst e env src :: evalAstList rest env src
termination_by structural els

/-- The `ObjectExpression` loop: skip non-`Property` members and computed or
non-static or empty keys, assign evaluated values (later duplicate wins). -/
def evalAstProps (props : List Ast) (env : List (String × EV)) (src : String)
    (out : List (String × EV)) : List (String × EV) :=
  match props with
  | [] => out
  | p :: rest =>
      match p with
      | .propE computed key value _ _ =>
          match (if computed then none else propKeyToString key) with
          | some k =>
              if k = "" then evalAstProps rest env src out
              else evalAstProps rest env src (alSet out k (evalAst value env src))
          | none => evalAstProps rest env src out
      | _ => evalAstProps rest env src out
termination_by structural props

/-- The `TemplateLiteral` loop: concatenate cooked quasis and stringified
embedded primitive values; `none` signals the degrade-to-placeholder exit. -/
def evalAstTmpl (qs : List (Option String)) (exprs : List Ast)
    (env : List (String × EV)) (src : String) (acc : String) : Option String :=
  match qs with
  | [] => some acc
  | q :: qrest =>
      let acc2 := acc ++ (match q with | some s => s | none => "")
      match exprs with
      | [] => some (acc2 ++ joinCooked qrest)
      | e :: erest =>
          match tmplStepVal (evalAst e env src) with
          | some sv => evalAstTmpl qrest erest env src (acc2 ++ sv)
          | none => none
termination_by structural exprs
end

example :
    evalAst (.objectE [.propE false (.ident "category" 1 9)
      (.lit (.str "x") 11 14) 1 14] 0 15) [] "" = .obj [("category", .str "x")] := rfl

example :
    evalAst (.callE (.ident "f" 0 1) [] 0 3) [("a", .num 2)] "f()" = .expr "f()" := rfl

example :
    evalAst (.tmpl [some "a", some "b"] [.ident "x" 3 4] 0 6)
      [("x", .num 5)] "" = .str "a5b" := rfl

example :
    evalAst (.tmpl [some "a", some "b"] [.callE (.ident "f" 3 4) [] 3 6] 2 13)
      [] "xy`a$ f()  b`" = .template "`a$ f()  b`" := rfl

/-! ## Registration-call finder (`parseEditorJsForRegisterTypes`) -/

/-- `isRegisterTypeCallee(callee)`: matches the three-level member access
`RED.nodes.registerType` (identifier or literal property keys accepted). -/
def isRegisterTypeCallee : Ast → Bool
  | .memberE obj property _ _ =>
      let propName :=
        match property with
        | .ident n _ _ => n
        | .lit v _ _ => litToString v
        | _ => ""
      if !(propName = "registerType") then false
      else
        match obj with
        | .memberE obj2 prop2 _ _ =>
            let objPropName :=
              match prop2 with
              | .ident n _ _ => n
              | .lit v _ _ => litToString v
              | _ => ""
            if !(objPropName = "nodes") then false
            else
              match obj2 with
              | .ident root _ _ => root = "RED"
              | _ => false
        | _ => false
  | _ => false

/-- `extractStringLiteral(node)`: a string only from a string `Literal`
node; the argument is optional because call arguments may be absent. -/
def extractStringLiteral : Option Ast → Option String
  | some (.lit (.str s) _ _) => some s
  | _ => none

/-- A discovered wrapper binding: the wrapper's (flattened) parameter name
list, the identifier node passed as the type argument of the inner
registration call, and the object-literal options argument node. -/
structure Wrapper where
  params : List String
  typeArg : Ast
  optionsArg : Ast
deriving Repr

/-- The name of an identifier node (`node.name`). -/
def identName : Ast → String
  | .ident n _ _ => n
  | _ => ""

/-- Whether a node is a call whose callee matches the registration
member-access pattern (the body-walk predicate of wrapper discovery). -/
def isRegisterTypeCall (a : Ast) : Bool :=
  match a with
  | .callE callee _ _ _ => isRegisterTypeCallee callee
  | _ => false

/-- `maybeRegisterWrapper(fnName, params, bodyNode)`: search the body's call
expressions (walk order, first match wins) for a registration call; the
function qualifies as a wrapper only if that call's type argument is an
identifier naming one of the parameters and its options argument is an
object literal.  `bodyCalls` is the list of `CallExpression` nodes of the
function body in walk order. -/
def maybeRegisterWrapper (wr : List (String × Wrapper)) (fnName : Option String)
    (params : List String) (bodyCalls : List Ast) : List (String × Wrapper) :=
  match fnName with
  | none => wr
  | some nm =>
      if nm = "" then wr
      else
        match bodyCalls.find? isRegisterTypeCall with
        | none => wr
        | some (.callE _ args _ _) =>
            match args[0]? with
            | some (tArg@(Ast.ident tn _ _)) =>
                if params.contains tn then
                  match args[1]? with
                  | some (oArg@(Ast.objectE _ _ _)) =>
                      alSet wr nm ⟨params, tArg, oArg⟩
                  | _ => wr
                else wr
            | _ => wr
        | some _ => wr

/-- A wrapper candidate as delivered by the pass-1 walker handlers: the
function's name (when it has one), its raw parameter list (`some name` for a
plain identifier parameter, `none` for a pattern), and the call expressions
of its block body in walk order.  Candidates exist for function
declarations and for variables initialized with a function/arrow carrying a
block body. -/
structure WrapperCand where
  fnName : Option String
  rawParams : List (Option String)
  bodyCalls : List Ast
deriving Repr

/-- The handlers' parameter flattening:
`params.map(p => p.type === "Identifier" ? p.name : null).filter(Boolean)`. -/
def filterParams (ps : List (Option String)) : List String :=
  ps.filterMap id

/-- Pass 1: fold the wrapper candidates (walk order) into the wrapper map. -/
def discoverWrappers (cands : List WrapperCand) : List (String × Wrapper) :=
  cands.foldl
    (fun wr c => maybeRegisterWrapper wr c.fnName (filterParams c.rawParams) c.bodyCalls)
    []

/-- One accepted registration: the type, the evaluated options value and the
original source text of the options argument. -/
structure Found where
  type : String
  options : EV
  optionsSource : String
deriving Repr

/-- The wrapper-call environment: bind each wrapper parameter positionally
to the evaluated value of the corresponding call argument (evaluated in an
empty environment); an absent argument binds to `null`. -/
def buildEnv : List String → List Ast → String → List (String × EV) →
    List (String × EV)
  | [], _, _, env => env
  | p :: ps, args, src, env =>
      let v := match args.head? with
        | some a => evalAst a [] src
        | none => EV.nullV
      buildEnv ps args.tail src (alSet env p v)

/-- The direct-call branch of the pass-2 `CallExpression` handler, split on
the extracted type: `if (!type) return;` rejects a missing or empty string
literal; otherwise the entry is pushed, with the options argument, whatever
its form, evaluated by the constrained evaluator (absent options evaluate
to `null` with empty source). -/
def directAccept (src : String) (args : List Ast) : Option String → Option Found
  | none => none
  | some t =>
      if t = "" then none
      else
        some
          { type := t
            options :=
              match args[1]? with
              | some o => evalAst o [] src
              | none => EV.nullV
            optionsSource :=
              match args[1]? with
              | some o => sliceSource src o.startPos o.endPos
              | none => "" }

/-- The direct branch: extract the type string literal, then accept. -/
def processDirectCall (src : String) (args : List Ast) : Option Found :=
  directAccept src args (extractStringLiteral args[0]?)

/-- The wrapper-call branch of the pass-2 `CallExpression` handler: bind the
wrapper parameters positionally (absent arguments bind `null`), resolve the
wrapper's type parameter in that environment, accept only a non-empty
string, and evaluate the captured options literal under the environment. -/
def processWrapperCall (w : Wrapper) (args : List Ast) (src : String) :
    Option Found :=
  let env := buildEnv w.params args src []
  let typeValue := (alGet env (identName w.typeArg)).getD .undefV
  match typeValue with
  | .str s =>
      if s = "" then none
      else
        some
          { type := s
            options := evalAst w.optionsArg env src
            optionsSource :=
              sliceSource src w.optionsArg.startPos w.optionsArg.endPos }
  | _ => none

/-- Pass 2 on one syntax node: only call expressions contribute; a call
whose callee matches the registration pattern takes the direct branch
(and never falls through), a bare-identifier call naming a discovered
wrapper takes the wrapper branch, anything else is skipped. -/
def processCall (wr : List (String × Wrapper)) (src : String) (node : Ast) :
    Option Found :=
  match node with
  | .callE callee args _ _ =>
      if isRegisterTypeCallee callee then processDirectCall src args
      else
        match callee with
        | .ident nm _ _ =>
            match alGet wr nm with
            | some w => processWrapperCall w args src
            | none => none
        | _ => none
  | _ => none

/-- One registration script block, as delivered to
`parseEditorJsForRegisterTypes`: either an acorn parse failure, or the
parsed tree abstracted as the data its two walker passes consume — the
wrapper candidates and the `CallExpression` nodes in walk order, plus the
script source text. -/
inductive Script where
  | parseFailed
  | parsed (cands : List WrapperCand) (calls : List Ast) (src : String)
deriving Repr

/-- `parseEditorJsForRegisterTypes(jsSource)`: a parse failure yields no
registrations and one warning; otherwise pass 1 discovers wrappers and
pass 2 resolves every call expression of the tree against them. -/
def parseEditorJsForRegisterTypes : Script → List Found × List String
  | .parseFailed => ([], ["acorn_parse_failed"])
  | .parsed cands calls src =>
      let wr := discoverWrappers cands
      (calls.filterMap (processCall wr src), [])

/-! ## Module-name decomposition, text normalization, template fields -/

/-- `s.startsWith(p)` on code units. -/
def strStartsWith (s p : String) : Bool := p.data.isPrefixOf s.data

/-- `String.prototype.split("/")`. -/
def splitSlashAux : List Char → List Char → List String
  | [], acc => [⟨acc.reverse⟩]
  | c :: rest, acc =>
      if c = '/' then ⟨acc.reverse⟩ :: splitSlashAux rest []
      else splitSlashAux rest (c :: acc)

/-- `s.split("/")`. -/
def splitSlash (s : String) : List String := splitSlashAux s.data []

/-- `parts.join("/")`. -/
def joinSlash : List String → String
  | [] => ""
  | [x] => x
  | x :: rest => x ++ "/" ++ joinSlash rest

/-- The module / package / set decomposition of a module name. -/
structure ModInfo where
  module : String
  modulePackage : String
  moduleSet : Option String
deriving Repr, DecidableEq

/-- `splitModuleName(moduleName)`: a scoped name with at least two path
segments keeps its first two segments as the package; otherwise the package
is the first segment (or the whole name if that is empty) and the set is the
joined remainder (absent when empty). -/
def splitModuleName (s : String) : ModInfo :=
  let parts := splitSlash s
  if strStartsWith s "@" && decide (2 ≤ parts.length) then
    { module := s
      modulePackage := joinSlash (parts.take 2)
      moduleSet :=
        let rest := joinSlash (parts.drop 2)
        if rest = "" then none else some rest }
  else
    { module := s
      modulePackage :=
        let h := (parts.head?).getD ""
        if h = "" then s else h
      moduleSet :=
        let rest := joinSlash (parts.drop 1)
        if rest = "" then none else some rest }

example : splitModuleName "node-red/inject" =
    { module := "node-red/inject", modulePackage := "node-red",
      moduleSet := some "inject" } := rfl

example : splitModuleName "@scope/pkg/set" =
    { module := "@scope/pkg/set", modulePackage := "@scope/pkg",
      moduleSet := some "set" } := rfl

/-- `\r\n` → `\n`. -/
def replCrLf : List Char → List Char
  | '\r' :: '\n' :: rest => '\n' :: replCrLf rest
  | c :: rest => c :: replCrLf rest
  | [] => []

/-- `[ \t]+` → a single space (`inRun` records that the current run has
already emitted its space). -/
def collapseSpaceRuns (inRun : Bool) : List Char → List Char
  | [] => []
  | c :: rest =>
      if c = ' ' || c = '\t' then
        if inRun then collapseSpaceRuns true rest
        else ' ' :: collapseSpaceRuns true rest
      else c :: collapseSpaceRuns false rest

/-- `\n{3,}` → two newlines (`seen` counts the newlines of the current run). -/
def collapseNewlineRuns (seen : Nat) : List Char → List Char
  | [] => []
  | c :: rest =>
      if c = '\n' then
        if 2 ≤ seen then collapseNewlineRuns (seen + 1) rest
        else '\n' :: collapseNewlineRuns (seen + 1) rest
      else c :: collapseNewlineRuns 0 rest

/-- JS-style whitespace for `trim`. -/
def isWsChar (c : Char) : Bool := c = ' ' || c = '\t' || c = '\n' || c = '\r'

/-- `String.prototype.trim`. -/
def trimChars (cs : List Char) : List Char :=
  ((cs.dropWhile isWsChar).reverse.dropWhile isWsChar).reverse

/-- `normalizeWhitespace(s)`. -/
def normalizeWhitespace (s : String) : String :=
  ⟨trimChars (collapseNewlineRuns 0 (collapseSpaceRuns false (replCrLf s.data)))⟩

/-- The tag-stripping replacement `/<[^>]+>/g` → a space.  `fuel` is a
structural-recursion bound (one character is consumed per step, so
`cs.length` fuel always suffices). -/
def stripTagsFuel : Nat → List Char → List Char
  | 0, _ => []
  | _ + 1, [] => []
  | fuel + 1, c :: rest =>
      if c = '<' then
        let seg := rest.takeWhile (fun d => !(d = '>'))
        if 0 < seg.length ∧ (rest.drop seg.length).head? = some '>' then
          ' ' :: stripTagsFuel fuel (rest.drop (seg.length + 1))
        else c :: stripTagsFuel fuel rest
      else c :: stripTagsFuel fuel rest

/-- `htmlToText(html)`: empty input yields the empty string; otherwise the
markup is reduced to text and whitespace-normalized.  (cheerio's text
extraction is modelled by the function's own fallback branch: strip tags,
then `normalizeWhitespace`; malformed markup cannot raise.) -/
def htmlToText (html : String) : String :=
  if html = "" then ""
  else normalizeWhitespace ⟨stripTagsFuel html.data.length html.data⟩

example : htmlToText "<p>Hello   <b>world</b></p>" = "Hello world" := rfl

/-- Order-preserving de-duplication (`Array.from(new Set(...))`). -/
def dedupFirst (seen : List String) : List String → List String
  | [] => []
  | x :: rest =>
      if seen.contains x then dedupFirst seen rest
      else x :: dedupFirst (x :: seen) rest

/-- Collect the values of `id="…"` attributes in document order (a model of
cheerio's `[id]` element enumeration; `fuel` bounds the scan structurally). -/
def collectIds : Nat → List Char → List String
  | 0, _ => []
  | _ + 1, [] => []
  | fuel + 1, c :: rest =>
      if ['i', 'd', '=', '"'].isPrefixOf (c :: rest) then
        let after := rest.drop 3
        let idv := after.takeWhile (fun d => !(d = '"'))
        (⟨idv⟩ : String) :: collectIds fuel (after.drop idv.length)
      else collectIds fuel rest

/-- `extractTemplateFields(templateHtml)`: ids matching `node-input-<name>`
are own fields, ids matching `node-config-input-<name>` are nested config
fields; both feed the order-preserving, de-duplicated `all` set; empty or
unmatched ids contribute nothing. -/
def extractTemplateFields (templateHtml : String) : EV :=
  let collected :=
    if templateHtml = "" then ([], [], [])
    else
      (collectIds templateHtml.data.length templateHtml.data).foldl
        (fun (acc : List String × List String × List String) id =>
          if id = "" then acc
          else if strStartsWith id "node-input-" ∧ 11 < id.data.length then
            let name : String := ⟨id.data.drop 11⟩
            (acc.1 ++ [name], acc.2.1, acc.2.2 ++ [name])
          else if strStartsWith id "node-config-input-" ∧ 18 < id.data.length then
            let name : String := ⟨id.data.drop 18⟩
            (acc.1, acc.2.1 ++ [name], acc.2.2 ++ [name])
          else acc)
        ([], [], [])
  let dd := fun (l : List String) =>
    EV.arr ((dedupFirst [] (l.filter (fun x => !(x = "")))).map EV.str)
  .obj [("node", dd collected.1), ("config", dd collected.2.1),
        ("all", dd collected.2.2)]

/-! ## The catalog builder (`parseNodesHtml`) -/

/-- One canonical node record.  Fields hold JS values (`EV`); a field that
was never set reads as `undefined`, matching property access on the
underlying JS object. -/
structure NodeRec where
  type : String
  module : EV := .undefV
  modulePackage : EV := .undefV
  moduleSet : EV := .undefV
  category : EV := .undefV
  paletteLabel : EV := .undefV
  color : EV := .undefV
  icon : EV := .undefV
  align : EV := .undefV
  inputs : EV := .undefV
  outputs : EV := .undefV
  outputLabels : EV := .undefV
  defaults : EV := .undefV
  options : EV := .undefV
  optionsSource : EV := .undefV
  help : EV := .undefV
  template : EV := .undefV
  templateFields : EV := .undefV
deriving Repr

/-- The module-set attribution value (`null` when the set is absent). -/
def setEV : Option String → EV
  | some s => .str s
  | none => .nullV

/-- Help-fragment merge: `Object.assign(nodesByType[type], {module…, help})`
(creates the record if needed, overwrites attribution and help). -/
def applyHelpEntry (mi : ModInfo) (nbt : List (String × NodeRec))
    (e : String × String) : List (String × NodeRec) :=
  let prev := (alGet nbt e.1).getD { type := e.1 }
  alSet nbt e.1
    { prev with
      module := .str mi.module
      modulePackage := .str mi.modulePackage
      moduleSet := setEV mi.moduleSet
      help := .obj [("html", .str e.2), ("text", .str (htmlToText e.2))] }

/-- Template-fragment merge: attribution, template html/text and the
extracted template fields. -/
def applyTemplateEntry (mi : ModInfo) (nbt : List (String × NodeRec))
    (e : String × String) : List (String × NodeRec) :=
  let prev := (alGet nbt e.1).getD { type := e.1 }
  alSet nbt e.1
    { prev with
      module := .str mi.module
      modulePackage := .str mi.modulePackage
      moduleSet := setEV mi.moduleSet
      template := .obj [("html", .str e.2), ("text", .str (htmlToText e.2))]
      templateFields := extractTemplateFields e.2 }

/-- The options normalization of the registration-entry merge:
`entry.options && typeof entry.options === "object" ? entry.options : {}`. -/
def entryOpts (en : Found) : EV :=
  if jsTruthy en.options && isObjectJS en.options then en.options
  else EV.obj []

/-- The registration-entry merge (`parse-nodes-html.ts`, the
`nodesByType[type] = { ...prev, … }` block): attribution and the full
`options` value are written unconditionally; each common field takes
`opts.<field> ?? prev.<field> ?? null`; `optionsSource` takes
`entry.optionsSource || prev.optionsSource || ""`; help/template data rides
along via the spread. -/
def mergeRecord (mi : ModInfo) (prev : NodeRec) (en : Found) : NodeRec :=
  let opts := entryOpts en
  { prev with
    type := en.type
    module := .str mi.module
    modulePackage := .str mi.modulePackage
    moduleSet := setEV mi.moduleSet
    category := jsCoalesce (evGet opts "category") (jsCoalesce prev.category .nullV)
    paletteLabel :=
      jsCoalesce (evGet opts "paletteLabel") (jsCoalesce prev.paletteLabel .nullV)
    color := jsCoalesce (evGet opts "color") (jsCoalesce prev.color .nullV)
    icon := jsCoalesce (evGet opts "icon") (jsCoalesce prev.icon .nullV)
    align := jsCoalesce (evGet opts "align") (jsCoalesce prev.align .nullV)
    inputs := jsCoalesce (evGet opts "inputs") (jsCoalesce prev.inputs .nullV)
    outputs := jsCoalesce (evGet opts "outputs") (jsCoalesce prev.outputs .nullV)
    outputLabels :=
      jsCoalesce (evGet opts "outputLabels") (jsCoalesce prev.outputLabels .nullV)
    defaults := jsCoalesce (evGet opts "defaults") (jsCoalesce prev.defaults .nullV)
    options := opts
    optionsSource :=
      jsOr (.str en.optionsSource) (jsOr prev.optionsSource (.str "")) }

/-- Apply one accepted registration to the type map
(`nodesByType[type] = nodesByType[type] || { type }` then the merge). -/
def mergeEntry (mi : ModInfo) (nbt : List (String × NodeRec)) (en : Found) :
    List (String × NodeRec) :=
  alSet nbt en.type (mergeRecord mi ((alGet nbt en.type).getD { type := en.type }) en)

/-- One per-module block of the admin HTML, after front-end extraction: the
module name from the delimiter comment, the help fragments keyed by type,
the template fragments keyed by type, and the registration script blocks. -/
structure ModuleB where
  name : String
  helps : List (String × String)
  templates : List (String × String)
  scripts : List Script
deriving Repr

/-- The per-module step of the build loop: help fragments first, then
template fragments, then the registration results of each script block
(script warnings are tagged with the module name). -/
def processModule (st : List (String × NodeRec) × List String) (m : ModuleB) :
    List (String × NodeRec) × List String :=
  let mi := splitModuleName m.name
  let nbt1 := m.helps.foldl (applyHelpEntry mi) st.1
  let nbt2 := m.templates.foldl (applyTemplateEntry mi) nbt1
  m.scripts.foldl
    (fun acc s =>
      let r := parseEditorJsForRegisterTypes s
      (r.1.foldl (mergeEntry mi) acc.1,
       acc.2 ++ r.2.map (fun w => mi.module ++ ":" ++ w)))
    (nbt2, st.2)

/-- Code-unit lexicographic comparison on character lists.  This is the
"ascending lexicographic order" the specification asserts for the final
node list — it is NOT the sort comparator of the program (see
`localeCompare` below), which is what claim C9 turns on. -/
def lexLeChars : List Char → List Char → Bool
  | [], _ => true
  | _ :: _, [] => false
  | a :: as, b :: bs =>
      if a.toNat < b.toNat then true
      else if b.toNat < a.toNat then false
      else lexLeChars as bs

/-- Lexicographic (code-unit) `≤` on strings. -/
def lexLe (a b : String) : Bool := lexLeChars a.data b.data

/-- Three-way code-unit comparison of key lists. -/
def cmpNats : List Nat → List Nat → Ordering
  | [], [] => .eq
  | [], _ :: _ => .lt
  | _ :: _, [] => .gt
  | a :: as, b :: bs =>
      if a < b then .lt
      else if b < a then .gt
      else cmpNats as bs

/-- The primary-strength collation key: case-folded code units. -/
def primaryKey (s : String) : List Nat :=
  s.data.map (fun c => c.toLower.toNat)

/-- The tertiary-strength collation key: lowercase (and caseless) before
uppercase. -/
def caseKeyList (s : String) : List Nat :=
  s.data.map (fun c => if c.isUpper then 1 else 0)

/-- The sort comparator `String(a.type).localeCompare(String(b.type))`,
modelled as ICU root collation (the behavior of
`String.prototype.localeCompare` in the ICU-enabled hosts — Node,
Workers — this program runs on) at the granularity the node type keys
need: the whole strings compare case-insensitively at primary strength
first; only on a primary tie does letter case decide, lowercase first.
Characters outside the cased letters compare by code unit. -/
def localeCompare (a b : String) : Int :=
  match cmpNats (primaryKey a) (primaryKey b) with
  | .lt => -1
  | .gt => 1
  | .eq =>
      match cmpNats (caseKeyList a) (caseKeyList b) with
      | .lt => -1
      | .gt => 1
      | .eq => 0

/-- The sort order of the final node list: ascending by the comparator
(`localeCompare` of the type keys at most zero). -/
def nodeLe (a b : NodeRec) : Prop := localeCompare a.type b.type ≤ 0

instance : DecidableRel nodeLe := fun a b =>
  inferInstanceAs (Decidable (localeCompare a.type b.type ≤ 0))

/-- The build output: the type map, the type-sorted node list, warnings. -/
structure BuildOutput where
  nodesByType : List (String × NodeRec)
  nodes : List NodeRec
  warnings : List String

/-- `parseNodesHtml`: fold all modules in document order, add the verbose
`no_nodes_parsed` warning when nothing was found, and emit the records
sorted by type key, ascending in the `localeCompare` comparator order. -/
def parseNodesHtml (modules : List ModuleB) (verbose : Bool) : BuildOutput :=
  let st := modules.foldl processModule ([], [])
  let ws := if verbose && st.1.isEmpty then st.2 ++ ["no_nodes_parsed"] else st.2
  { nodesByType := st.1
    nodes := List.insertionSort nodeLe (st.1.map (·.2))
    warnings := ws }

/-! ## The catalog cache (`NodeCatalog`) and search -/

/-- Catalog configuration as fixed by the constructor: the freshness
threshold in milliseconds (non-negative; invalid input falls back to
60000), the custom-module allowlist, the verbose flag and the upstream
URL. -/
structure CatConfig where
  ttlMs : Int
  customModules : List String
  verbose : Bool
  nodeRedUrl : Option String

/-- A catalog node: the built record plus the derived custom flag. -/
structure CatNode where
  nrec : NodeRec
  isCustom : Bool
deriving Repr

/-- The cache slot (`this._cache`): one timestamped snapshot. -/
structure CacheState where
  ts : Int
  nodesByType : List (String × CatNode)
  nodes : List CatNode
  warnings : List String
  nodeRedUrl : Option String
deriving Repr

/-- `_markCustom(node)`: custom iff the package exactly matches an allowlist
entry, or the module name is prefixed by one. -/
def markCustom (cfg : CatConfig) (n : NodeRec) : CatNode :=
  let pkg := if jsTruthy n.modulePackage then evToString n.modulePackage else ""
  let moduleName := if jsTruthy n.module then evToString n.module else ""
  { nrec := n
    isCustom :=
      (!(pkg = "") && cfg.customModules.contains pkg) ||
      (!(moduleName = "") &&
        cfg.customModules.any (fun m => strStartsWith moduleName m)) }

/-- The snapshot built by a successful refresh at time `tNow`: parse, mark
custom nodes, rebuild the by-type index, stamp the time. -/
def buildCache (cfg : CatConfig) (modules : List ModuleB) (tNow : Int) :
    CacheState :=
  let parsed := parseNodesHtml modules cfg.verbose
  let nodes := parsed.nodes.map (markCustom cfg)
  { ts := tNow
    nodesByType := nodes.foldl (fun acc n => alSet acc n.nrec.type n) []
    nodes := nodes
    warnings := parsed.warnings
    nodeRedUrl := cfg.nodeRedUrl }

/-- `refresh()`: fetch, parse and publish.  The upstream fetch result is the
explicit `fetch` argument (`callNodeRed` raises on a non-success status or
transport fault, which is the `Except.error` case); the pair is (result
raised/returned to the caller, cache state after the call).  On error the
cache assignment is never reached, so the state is returned untouched. -/
def refreshStep (cfg : CatConfig) (st : CacheState)
    (fetch : Except String (List ModuleB)) (tNow : Int) :
    Except String CacheState × CacheState :=
  match fetch with
  | .error e => (.error e, st)
  | .ok modules =>
      let st' := buildCache cfg modules tNow
      (.ok st', st')

/-- `_isExpired()`: a zero threshold is always stale; otherwise stale when
the elapsed time exceeds the threshold. -/
def isExpired (cfg : CatConfig) (st : CacheState) (tNow : Int) : Bool :=
  if cfg.ttlMs = 0 then true else decide (cfg.ttlMs < tNow - st.ts)

/-- `getCatalog({force})`: refresh when forced, expired, or the snapshot is
empty; otherwise return the current snapshot unchanged. -/
def getCatalogStep (cfg : CatConfig) (st : CacheState) (force : Bool)
    (fetch : Except String (List ModuleB)) (tNow : Int) :
    Except String CacheState × CacheState :=
  if force || isExpired cfg st tNow || st.nodes.isEmpty then
    refreshStep cfg st fetch tNow
  else (.ok st, st)

/-- A JS number as passed for `limit`: possibly `NaN` or an infinity. -/
inductive JSNum where
  | nan
  | posInf
  | negInf
  | finite (n : Int)
deriving Repr, DecidableEq

/-- The arguments of `search`. -/
structure SearchArgs where
  query : String
  customOnly : Bool
  module : Option String
  category : Option String
  limit : JSNum

/-- `s.toLowerCase()`. -/
def lowerStr (s : String) : String := ⟨s.data.map Char.toLower⟩

/-- `s.trim()`. -/
def trimStr (s : String) : String := ⟨trimChars s.data⟩

/-- `String.prototype.indexOf` (first match index, `none` for `-1`). -/
def indexOfAux (needle : List Char) : List Char → Nat → Option Nat
  | [], i => if needle.isPrefixOf ([] : List Char) then some i else none
  | c :: rest, i =>
      if needle.isPrefixOf (c :: rest) then some i
      else indexOfAux needle rest (i + 1)

/-- `hay.indexOf(needle)` as an optional index. -/
def strIndexOf (hay needle : String) : Option Nat :=
  indexOfAux needle.data hay.data 0

/-- `hay.includes(needle)`. -/
def strIncludes (hay needle : String) : Bool := (strIndexOf hay needle).isSome

/-- `(v || "")` followed by use as a string. -/
def jsStrOr (v : EV) : String := if jsTruthy v then evToString v else ""

/-- `parts.join(sep)` over stringified values. -/
def joinWith (sep : String) : List String → String
  | [] => ""
  | [x] => x
  | x :: rest => x ++ sep ++ joinWith sep rest

/-- `nodeHaystack(n)`: the lower-cased concatenation of type, category,
palette label, module attribution, help text and (when `defaults` is a
non-null object) the joined default-field names, truthy parts only. -/
def nodeHaystack (n : CatNode) : String :=
  let parts : List EV :=
    [EV.str n.nrec.type, n.nrec.category, n.nrec.paletteLabel, n.nrec.module,
     n.nrec.modulePackage, n.nrec.moduleSet,
     (if isNullish n.nrec.help then EV.undefV else evGet n.nrec.help "text")]
  let parts :=
    if jsTruthy n.nrec.defaults && isObjectJS n.nrec.defaults then
      parts ++ [EV.str (joinWith " " (evKeys n.nrec.defaults))]
    else parts
  lowerStr (joinWith "\n" ((parts.filter jsTruthy).map evToString))

/-- Sort order of search matches: ascending score
(`(a, b) => a.score - b.score`). -/
def scoreLe (a b : CatNode × ℚ) : Prop := a.2 ≤ b.2

instance : DecidableRel scoreLe := fun a b =>
  inferInstanceAs (Decidable (a.2 ≤ b.2))

/-- The candidate filtering, scoring and sorting of `search` (everything
between the snapshot read and the slice): custom restriction, module and
category substring filters, haystack match with score `index +
min(length, 10000) / 10000`, ascending sort. -/
def searchRanked (c : CacheState) (q : String) (customOnly : Bool)
    (module category : Option String) : List (CatNode × ℚ) :=
  let nodes := if customOnly then c.nodes.filter (·.isCustom) else c.nodes
  let moduleFilter :=
    match module with
    | some s => if s = "" then none else some (lowerStr s)
    | none => none
  let categoryFilter :=
    match category with
    | some s => if s = "" then none else some (lowerStr s)
    | none => none
  let scored := nodes.filterMap (fun n =>
    let mOk :=
      match moduleFilter with
      | some f => strIncludes (lowerStr (jsStrOr n.nrec.module)) f
      | none => true
    if !mOk then none
    else
      let cOk :=
        match categoryFilter with
        | some f => strIncludes (lowerStr (jsStrOr n.nrec.category)) f
        | none => true
      if !cOk then none
      else
        let hay := nodeHaystack n
        match strIndexOf hay q with
        | none => none
        | some idx =>
            some (n, (idx : ℚ) + (min hay.data.length 10000 : ℚ) / 10000))
  List.insertionSort scoreLe scored

/-- A search result entry. -/
structure SearchHit where
  type : String
  category : EV
  paletteLabel : EV
  module : EV
  modulePackage : EV
  isCustom : Bool
  snippet : String
deriving Repr

/-- The result projection of `search`: nullable display fields plus a
snippet from help text, else template text, capped at 400 characters. -/
def toHit (n : CatNode) : SearchHit :=
  { type := n.nrec.type
    category := jsCoalesce n.nrec.category .nullV
    paletteLabel := jsCoalesce n.nrec.paletteLabel .nullV
    module := jsCoalesce n.nrec.module .nullV
    modulePackage := jsCoalesce n.nrec.modulePackage .nullV
    isCustom := n.isCustom
    snippet :=
      let ht := if isNullish n.nrec.help then EV.undefV else evGet n.nrec.help "text"
      let tt :=
        if isNullish n.nrec.template then EV.undefV
        else evGet n.nrec.template "text"
      let s1 : String := ⟨(jsStrOr ht).data.take 400⟩
      if !(s1 = "") then s1
      else
        let s2 : String := ⟨(jsStrOr tt).data.take 400⟩
        if !(s2 = "") then s2 else "" }

/-- `search(...)` on a given snapshot: normalize the query, resolve the
limit (finite limits clamp into `[1, 200]`, anything else falls back to the
default 25), return nothing for an empty query, else slice the ranked
matches to the limit and project. -/
def searchImpl (c : CacheState) (args : SearchArgs) : List SearchHit :=
  let q := lowerStr (trimStr args.query)
  let lim : Nat :=
    match args.limit with
    | .finite n => (max 1 (min 200 n)).toNat
    | _ => 25
  if q = "" then []
  else
    ((searchRanked c q args.customOnly args.module args.category).take lim).map
      (fun m => toHit m.1)

/-- The full `search` call: empty queries return immediately without
touching the cache; otherwise the snapshot is obtained through the
non-forced `getCatalog` read path and searched. -/
def searchStep (cfg : CatConfig) (st : CacheState) (args : SearchArgs)
    (fetch : Except String (List ModuleB)) (tNow : Int) :
    Except String (List SearchHit) × CacheState :=
  let q := lowerStr (trimStr args.query)
  if q = "" then (.ok [], st)
  else
    match getCatalogStep cfg st false fetch tNow with
    | (.ok c, st') => (.ok (searchImpl c args), st')
    | (.error e, st') => (.error e, st')


/-! ## Theorems -/

/-- The six dynamic node kinds the evaluator refuses to invoke. -/
def isDynamicKind : Ast → Bool
  | .callE _ _ _ _ => true
  | .memberE _ _ _ _ => true
  | .binE _ _ _ _ => true
  | .logicE _ _ _ _ => true
  | .condE _ _ _ _ _ => true
  | .newE _ _ _ => true
  | _ => false

/-- C1: for every syntax node whose kind is a call, member-access, binary,
logical, conditional or constructor (`new`) expression, `evalAst` never
invokes it: under every binding environment it returns the opaque
`Expression` placeholder (`kind "expr"`) carrying the node's original
source text, and being a total function it never raises. -/
theorem evalAst_dynamic_degrades_to_expr (n : Ast) (env : List (String × EV))
    (src : String) (h : isDynamicKind n = true) :
    evalAst n env src = .expr (sliceSource src n.startPos n.endPos) := by
  cases n <;> first
    | rfl
    | exact Bool.noConfusion h

/-- C1 witness: a concrete call expression degrades to its source text under
a non-trivial environment. -/
theorem evalAst_dynamic_degrades_to_expr_witness :
    evalAst (.callE (.ident "f" 0 1) [] 0 3) [("a", EV.num 1)] "f()" =
      .expr "f()" :=
  evalAst_dynamic_degrades_to_expr (.callE (.ident "f" 0 1) [] 0 3)
    [("a", EV.num 1)] "f()" rfl

/-- Direct-pattern calls take the direct branch of the pass-2 handler. -/
theorem processCall_direct_branch (wr : List (String × Wrapper)) (src : String)
    (callee : Ast) (args : List Ast) (ps pe : Nat)
    (h : isRegisterTypeCallee callee = true) :
    processCall wr src (.callE callee args ps pe) = processDirectCall src args := by
  simp only [processCall, h]
  rfl

/-- Bare-identifier calls naming a discovered wrapper take the wrapper
branch of the pass-2 handler. -/
theorem processCall_wrapper_branch (wr : List (String × Wrapper)) (src : String)
    (nm : String) (w : Wrapper) (args : List Ast) (ips ipe ps pe : Nat)
    (hw : alGet wr nm = some w) :
    processCall wr src (.callE (.ident nm ips ipe) args ps pe) =
      processWrapperCall w args src := by
  have e1 : processCall wr src (.callE (.ident nm ips ipe) args ps pe) =
      match alGet wr nm with
      | some w => processWrapperCall w args src
      | none => none := rfl
  rw [e1, hw]

/-- The source text of the C2 counterexample: a direct registration call
whose options argument is a bare identifier, not an object literal. -/
def directCallSrc : String := "RED.nodes.registerType(\"foo\", x)"

/-- The syntax tree of `directCallSrc`. -/
def directCallAst : Ast :=
  .callE (.memberE (.memberE (.ident "RED" 0 3) (.ident "nodes" 4 9) 0 9)
      (.ident "registerType" 10 22) 0 22)
    [.lit (.str "foo") 23 28, .ident "x" 30 31] 0 32

/-- C2 counterexample: a direct `RED.nodes.registerType` call with a string
literal type but a non-object-literal options argument is NOT skipped: it
contributes a registration (with the evaluated placeholder as options),
refuting the claim that such a call is skipped and contributes no
registration. -/
theorem direct_call_nonobject_options_accepted :
    processCall [] directCallSrc directCallAst =
      some { type := "foo", options := .ref "x", optionsSource := "x" } ∧
    processCall [] directCallSrc directCallAst ≠ none := by
  refine ⟨rfl, ?_⟩
  intro hc
  rw [show processCall [] directCallSrc directCallAst =
    some { type := "foo", options := .ref "x", optionsSource := "x" } from rfl] at hc
  exact Option.noConfusion hc

/-- C2 (amended): a direct registration call is accepted exactly when its
first argument is a non-empty string literal; the options argument is not
required to be an object literal — whatever it is, it is evaluated by the
constrained evaluator (an absent options argument contributes `null`
options and an empty source). -/
theorem direct_call_acceptance (wr : List (String × Wrapper)) (src : String)
    (callee : Ast) (args : List Ast) (ps pe : Nat)
    (h : isRegisterTypeCallee callee = true) :
    (extractStringLiteral args[0]? = none →
       processCall wr src (.callE callee args ps pe) = none) ∧
    (extractStringLiteral args[0]? = some "" →
       processCall wr src (.callE callee args ps pe) = none) ∧
    (∀ t, extractStringLiteral args[0]? = some t → t ≠ "" →
       processCall wr src (.callE callee args ps pe) =
         some { type := t
                options :=
                  match args[1]? with
                  | some o => evalAst o [] src
                  | none => EV.nullV
                optionsSource :=
                  match args[1]? with
                  | some o => sliceSource src o.startPos o.endPos
                  | none => "" }) := by
  have e2 : processDirectCall src args =
      directAccept src args (extractStringLiteral args[0]?) := rfl
  refine ⟨?_, ?_, ?_⟩
  · intro he
    rw [processCall_direct_branch wr src callee args ps pe h, e2, he]
    rfl
  · intro he
    rw [processCall_direct_branch wr src callee args ps pe h, e2, he]
    rfl
  · intro t he hne
    rw [processCall_direct_branch wr src callee args ps pe h, e2, he]
    show (if t = "" then none else _) = _
    rw [if_neg hne]

/-- The source text of the C2 witness: a direct registration call with an
object-literal options argument. -/
def directOkSrc : String := "RED.nodes.registerType(\"foo\", {inputs: 1})"

/-- The syntax tree of `directOkSrc`. -/
def directOkAst : Ast :=
  .callE (.memberE (.memberE (.ident "RED" 0 3) (.ident "nodes" 4 9) 0 9)
      (.ident "registerType" 10 22) 0 22)
    [.lit (.str "foo") 23 28,
     .objectE [.propE false (.ident "inputs" 31 37) (.lit (.num 1) 39 40) 31 40]
       30 41]
    0 42

/-- C2 witness: the acceptance characterization applied to a concrete
well-formed direct call. -/
theorem direct_call_acceptance_witness :
    processCall [] directOkSrc directOkAst =
      some { type := "foo", options := .obj [("inputs", EV.num 1)],
             optionsSource := "{inputs: 1}" } := by
  have h :=
    (direct_call_acceptance [] directOkSrc
      (.memberE (.memberE (.ident "RED" 0 3) (.ident "nodes" 4 9) 0 9)
        (.ident "registerType" 10 22) 0 22)
      [.lit (.str "foo") 23 28,
       .objectE [.propE false (.ident "inputs" 31 37) (.lit (.num 1) 39 40) 31 40]
         30 41]
      0 42 rfl).2.2 "foo" rfl (by decide)
  exact h

/-- The concrete input of the C7 witness. -/
def determinismInput : List ModuleB :=
  [{ name := "m", helps := [("a", "<p>doc</p>")], templates := [],
     scripts := [.parseFailed] }]

/-- C7: the catalog build is deterministic — two runs on identical input
produce identical type maps, identical sorted node lists (hence identical
field values on every record) and identical warnings. -/
theorem parseNodesHtml_deterministic (m1 m2 : List ModuleB) (v : Bool)
    (h : m1 = m2) :
    (parseNodesHtml m1 v).nodes = (parseNodesHtml m2 v).nodes ∧
    (parseNodesHtml m1 v).nodesByType = (parseNodesHtml m2 v).nodesByType ∧
    (parseNodesHtml m1 v).warnings = (parseNodesHtml m2 v).warnings := by
  subst h; exact ⟨rfl, rfl, rfl⟩

/-- C7 witness: determinism at a concrete input. -/
theorem parseNodesHtml_deterministic_witness :
    (parseNodesHtml determinismInput true).nodes =
      (parseNodesHtml determinismInput true).nodes ∧
    (parseNodesHtml determinismInput true).nodesByType =
      (parseNodesHtml determinismInput true).nodesByType ∧
    (parseNodesHtml determinismInput true).warnings =
      (parseNodesHtml determinismInput true).warnings :=
  parseNodesHtml_deterministic determinismInput determinismInput true rfl

/-- Setting a key makes it readable. -/
theorem alGet_alSet_self {α : Type} (l : List (String × α)) (k : String) (v : α) :
    alGet (alSet l k v) k = some v := by
  induction l with
  | nil => simp [alSet, alGet]
  | cons p rest ih =>
      obtain ⟨k0, v0⟩ := p
      by_cases h : k0 = k
      · simp [alSet, alGet, h]
      · simp [alSet, alGet, h, ih]

/-- Setting one key leaves other keys unchanged. -/
theorem alGet_alSet_ne {α : Type} (l : List (String × α)) (k k' : String)
    (v : α) (h : k' ≠ k) : alGet (alSet l k v) k' = alGet l k' := by
  have hkk : ¬(k = k') := fun e => h e.symm
  induction l with
  | nil => simp [alSet, alGet, hkk]
  | cons p rest ih =>
      obtain ⟨k0, v0⟩ := p
      by_cases h0 : k0 = k
      · subst h0
        simp [alSet, alGet, hkk]
      · simp [alSet, alGet, h0, ih]

/-- `buildEnv` only writes keys from the parameter list. -/
theorem buildEnv_preserve (ps : List String) (args : List Ast) (src : String)
    (env : List (String × EV)) (k : String) (h : k ∉ ps) :
    alGet (buildEnv ps args src env) k = alGet env k := by
  induction ps generalizing args env with
  | nil => rfl
  | cons p rest ih =>
      have hne : k ≠ p := fun e => h (e ▸ List.mem_cons_self p rest)
      have h2 : k ∉ rest := fun hm => h (List.mem_cons_of_mem _ hm)
      have e1 : buildEnv (p :: rest) args src env =
          buildEnv rest args.tail src
            (alSet env p
              (match args.head? with
               | some a => evalAst a [] src
               | none => EV.nullV)) := rfl
      rw [e1, ih args.tail _ h2, alGet_alSet_ne env p k _ hne]

/-- Positional binding: under distinct parameter names, the environment
built for a wrapper call maps the `i`-th parameter to the evaluated `i`-th
argument, and to `null` when that argument is absent. -/
theorem buildEnv_lookup (ps : List String) (args : List Ast) (src : String)
    (env : List (String × EV)) (hnd : ps.Nodup) (i : Nat) (hi : i < ps.length) :
    alGet (buildEnv ps args src env) (ps.get ⟨i, hi⟩) =
      some (match args[i]? with
            | some a => evalAst a [] src
            | none => EV.nullV) := by
  induction ps generalizing args env i with
  | nil => exact absurd hi (by simp)
  | cons p rest ih =>
      have e1 : buildEnv (p :: rest) args src env =
          buildEnv rest args.tail src
            (alSet env p
              (match args.head? with
               | some a => evalAst a [] src
               | none => EV.nullV)) := rfl
      cases i with
      | zero =>
          have hp : p ∉ rest := (List.nodup_cons.mp hnd).1
          rw [show (p :: rest).get ⟨0, hi⟩ = p from rfl, e1,
            buildEnv_preserve rest args.tail src _ p hp, alGet_alSet_self]
          cases args <;> simp
      | succ j =>
          have hj : j < rest.length := Nat.lt_of_succ_lt_succ hi
          have e2 : (p :: rest).get ⟨j + 1, hi⟩ = rest.get ⟨j, hj⟩ := rfl
          have e3 : args[j + 1]? = args.tail[j]? := by cases args <;> simp
          rw [e2, e1, e3]
          exact ih args.tail _ (List.nodup_cons.mp hnd).2 j hj

/-- C3: resolution of a call through a discovered wrapper.  (a) the binding
environment binds each wrapper parameter positionally to the evaluated
value of the corresponding call argument, `null` when absent; (b) such a
call takes the wrapper branch; (c) when the wrapper's type parameter
resolves to a non-empty string the call is accepted, with the captured
options literal evaluated under that environment; (d) the call is accepted
exactly when the type parameter resolves to a non-empty string. -/
theorem wrapper_call_resolution (wr : List (String × Wrapper)) (src nm : String)
    (w : Wrapper) (args : List Ast) (ips ipe ps pe : Nat)
    (hw : alGet wr nm = some w) :
    (w.params.Nodup → ∀ i (hi : i < w.params.length),
       alGet (buildEnv w.params args src []) (w.params.get ⟨i, hi⟩) =
         some (match args[i]? with
               | some a => evalAst a [] src
               | none => EV.nullV)) ∧
    processCall wr src (.callE (.ident nm ips ipe) args ps pe) =
      processWrapperCall w args src ∧
    (∀ s,
       (alGet (buildEnv w.params args src []) (identName w.typeArg)).getD .undefV
           = .str s →
       s ≠ "" →
       processWrapperCall w args src =
         some { type := s
                options := evalAst w.optionsArg (buildEnv w.params args src []) src
                optionsSource :=
                  sliceSource src w.optionsArg.startPos w.optionsArg.endPos }) ∧
    ((∃ e, processWrapperCall w args src = some e) ↔
      (∃ s,
        (alGet (buildEnv w.params args src []) (identName w.typeArg)).getD .undefV
            = .str s ∧ s ≠ "")) := by
  refine ⟨?_, ?_, ?_, ?_⟩
  · intro hnd i hi
    exact buildEnv_lookup w.params args src [] hnd i hi
  · exact processCall_wrapper_branch wr src nm w args ips ipe ps pe hw
  · intro s hs hne
    simp only [processWrapperCall]
    rw [hs]
    show (if s = "" then none else _) = _
    rw [if_neg hne]
  · simp only [processWrapperCall]
    constructor
    · rintro ⟨e, he⟩
      revert he
      generalize (alGet (buildEnv w.params args src []) (identName w.typeArg)).getD .undefV = v
      cases v <;> intro he <;> try exact Option.noConfusion he
      rename_i s
      by_cases hs : s = ""
      · rw [hs] at he
        exact absurd he (by simp)
      · exact ⟨s, rfl, hs⟩
    · rintro ⟨s, hs, hne⟩
      refine
        ⟨{ type := s
           options := evalAst w.optionsArg (buildEnv w.params args src []) src
           optionsSource :=
             sliceSource src w.optionsArg.startPos w.optionsArg.endPos }, ?_⟩
      rw [hs]
      show (if s = "" then none else _) = _
      rw [if_neg hne]

/-- The C3 scenario source: a wrapper whose body performs the registration
with its own first parameter and an object-literal options argument, plus a
call site. -/
def wrapperDemoSrc : String :=
  "function reg(type, label) { RED.nodes.registerType(type, {category: label}); } reg(\"bar\", \"group\");"

/-- The inner registration call of the wrapper body. -/
def wrapperDemoInner : Ast :=
  .callE (.memberE (.memberE (.ident "RED" 28 31) (.ident "nodes" 32 37) 28 37)
      (.ident "registerType" 38 50) 28 50)
    [.ident "type" 51 55,
     .objectE [.propE false (.ident "category" 58 66) (.ident "label" 68 73) 58 73]
       57 74]
    28 75

/-- The wrapper call site `reg("bar", "group")`. -/
def wrapperDemoCallSite : Ast :=
  .callE (.ident "reg" 79 82)
    [.lit (.str "bar") 83 88, .lit (.str "group") 90 97] 79 98

/-- The wrapper binding pass 1 discovers for `reg`. -/
def wrapperDemoW : Wrapper :=
  { params := ["type", "label"]
    typeArg := .ident "type" 51 55
    optionsArg :=
      .objectE [.propE false (.ident "category" 58 66) (.ident "label" 68 73) 58 73]
        57 74 }

/-- The wrapper map of the scenario script. -/
def wrapperDemoWrappers : List (String × Wrapper) :=
  discoverWrappers
    [⟨some "reg", [some "type", some "label"], [wrapperDemoInner]⟩]

/-- The scenario as one module of the build input. -/
def wrapperDemoModule : ModuleB :=
  { name := "node-red/test", helps := [], templates := []
    scripts :=
      [.parsed [⟨some "reg", [some "type", some "label"], [wrapperDemoInner]⟩]
        [wrapperDemoInner, wrapperDemoCallSite] wrapperDemoSrc] }

/-- C3 witness: the resolution theorem applied to the concrete scenario —
the call site yields the registration for `"bar"` with category `"group"`,
and the record the whole build produces for `"bar"` carries that category. -/
theorem wrapper_call_resolution_witness :
    processCall wrapperDemoWrappers wrapperDemoSrc wrapperDemoCallSite =
      some { type := "bar", options := .obj [("category", EV.str "group")],
             optionsSource := "{category: label}" } ∧
    (alGet (parseNodesHtml [wrapperDemoModule] false).nodesByType "bar").map
        (fun r => r.category) = some (.str "group") := by
  have hthm :=
    wrapper_call_resolution wrapperDemoWrappers wrapperDemoSrc "reg"
      wrapperDemoW [.lit (.str "bar") 83 88, .lit (.str "group") 90 97]
      79 82 79 98 rfl
  constructor
  · rw [show wrapperDemoCallSite =
      .callE (.ident "reg" 79 82)
        [.lit (.str "bar") 83 88, .lit (.str "group") 90 97] 79 98 from rfl]
    rw [hthm.2.1]
    exact hthm.2.2.1 "bar" rfl (by decide)
  · rfl

/-- A non-forced read within the freshness threshold of a non-empty
snapshot does not refresh: it returns the snapshot unchanged. -/
theorem getCatalog_within_ttl (cfg : CatConfig) (st : CacheState)
    (fetch : Except String (List ModuleB)) (tNow : Int) (hn : st.nodes ≠ [])
    (ht : cfg.ttlMs ≠ 0) (hle : tNow - st.ts ≤ cfg.ttlMs) :
    getCatalogStep cfg st false fetch tNow = (.ok st, st) := by
  have hexp : isExpired cfg st tNow = false := by
    unfold isExpired
    rw [if_neg ht]
    exact decide_eq_false (not_lt.mpr hle)
  have hie : st.nodes.isEmpty = false := by
    cases hcase : st.nodes with
    | nil => exact absurd hcase hn
    | cons a l => rfl
  unfold getCatalogStep
  rw [hexp, hie]
  rfl

/-- C4: `getCatalog(force)` refreshes (replacing the snapshot wholesale with
a freshly built, freshly timestamped one) exactly when forced, or the
snapshot is empty, or the threshold is zero (always stale), or the elapsed
time exceeds the threshold; otherwise it returns the existing snapshot
unchanged — in particular two non-forced reads within the threshold both
return the same snapshot with the same timestamp. -/
theorem getCatalog_refresh_exactly_when (cfg : CatConfig) (st : CacheState)
    (force : Bool) (fetch : Except String (List ModuleB)) (tNow : Int) :
    ((force = true ∨ st.nodes = [] ∨ cfg.ttlMs = 0 ∨ cfg.ttlMs < tNow - st.ts) →
       getCatalogStep cfg st force fetch tNow = refreshStep cfg st fetch tNow) ∧
    ((force = false ∧ st.nodes ≠ [] ∧ cfg.ttlMs ≠ 0 ∧ tNow - st.ts ≤ cfg.ttlMs) →
       getCatalogStep cfg st force fetch tNow = (.ok st, st)) ∧
    (∀ ms, refreshStep cfg st (.ok ms) tNow =
       (.ok (buildCache cfg ms tNow), buildCache cfg ms tNow)) ∧
    (∀ t1 t2 f1 f2, st.nodes ≠ [] → cfg.ttlMs ≠ 0 →
       t1 - st.ts ≤ cfg.ttlMs → t2 - st.ts ≤ cfg.ttlMs →
       getCatalogStep cfg st false f1 t1 = (.ok st, st) ∧
       getCatalogStep cfg st false f2 t2 = (.ok st, st)) := by
  refine ⟨?_, ?_, fun ms => rfl, ?_⟩
  · intro h
    rcases h with h | h | h | h
    · subst h; rfl
    · unfold getCatalogStep
      rw [show st.nodes.isEmpty = true from by rw [h]; rfl]
      simp
    · unfold getCatalogStep isExpired
      rw [if_pos h]
      simp
    · unfold getCatalogStep isExpired
      rw [show (if cfg.ttlMs = 0 then true
          else decide (cfg.ttlMs < tNow - st.ts)) = true from ?_]
      · simp
      · by_cases h0 : cfg.ttlMs = 0
        · rw [if_pos h0]
        · rw [if_neg h0]
          exact decide_eq_true h
  · rintro ⟨hf, hn, ht, hle⟩
    subst hf
    exact getCatalog_within_ttl cfg st fetch tNow hn ht hle
  · intro t1 t2 f1 f2 hn ht h1 h2
    exact ⟨getCatalog_within_ttl cfg st f1 t1 hn ht h1,
      getCatalog_within_ttl cfg st f2 t2 hn ht h2⟩

/-- The concrete configuration of the cache witnesses: a one-minute
threshold and no allowlist. -/
def demoCfg : CatConfig := ⟨60000, [], false, none⟩

/-- A concrete non-empty snapshot taken at time 100. -/
def demoSt : CacheState :=
  ⟨100, [("a", ⟨{ type := "a" }, false⟩)], [⟨{ type := "a" }, false⟩], [], none⟩

/-- C4 witness: within the threshold a non-forced read returns the snapshot
unchanged; a forced read refreshes. -/
theorem getCatalog_refresh_exactly_when_witness :
    getCatalogStep demoCfg demoSt false (.error "down") 50100 =
      (.ok demoSt, demoSt) ∧
    getCatalogStep demoCfg demoSt true (.ok []) 200 =
      refreshStep demoCfg demoSt (.ok []) 200 := by
  constructor
  · exact (getCatalog_refresh_exactly_when demoCfg demoSt false (.error "down")
      50100).2.1 ⟨rfl, by simp [demoSt], by simp [demoCfg], by decide⟩
  · exact (getCatalog_refresh_exactly_when demoCfg demoSt true (.ok [])
      200).1 (Or.inl rfl)

/-- C5 counterexample: after a failed refresh the cache state is unchanged
(the first two claim conjuncts hold), but a subsequent non-forced read past
the freshness threshold does NOT return the last good snapshot — it
re-attempts the refresh and raises the fetch error instead, refuting the
claim's unqualified "subsequent non-forced reads still return the last good
snapshot". -/
theorem stale_read_after_failed_refresh :
    refreshStep demoCfg demoSt (.error "boom") 150 = (.error "boom", demoSt) ∧
    getCatalogStep demoCfg demoSt false (.error "boom") 70000 =
      (.error "boom", demoSt) ∧
    ((.error "boom" : Except String CacheState) ≠ .ok demoSt) := by
  refine ⟨rfl, ?_, ?_⟩
  · rfl
  · intro h; exact Except.noConfusion h

/-- C5 (amended): a refresh whose upstream fetch fails raises the error to
the caller and leaves the cache state entirely unchanged; subsequent
non-forced reads return the last good snapshot as long as it is non-empty
and within the freshness threshold (a read past the threshold re-attempts
the refresh and propagates a repeated failure instead). -/
theorem refresh_failure_preserves_snapshot (cfg : CatConfig) (st : CacheState)
    (e : String) (tNow : Int) :
    refreshStep cfg st (.error e) tNow = (.error e, st) ∧
    (∀ t2 fetch2, st.nodes ≠ [] → cfg.ttlMs ≠ 0 → t2 - st.ts ≤ cfg.ttlMs →
       getCatalogStep cfg st false fetch2 t2 = (.ok st, st)) :=
  ⟨rfl, fun t2 fetch2 hn ht hle => getCatalog_within_ttl cfg st fetch2 t2 hn ht hle⟩

/-- C5 witness: the failed refresh leaves the concrete snapshot in place
and a read shortly after still serves it. -/
theorem refresh_failure_preserves_snapshot_witness :
    refreshStep demoCfg demoSt (.error "boom") 150 = (.error "boom", demoSt) ∧
    getCatalogStep demoCfg demoSt false (.error "boom") 30100 =
      (.ok demoSt, demoSt) := by
  have h := refresh_failure_preserves_snapshot demoCfg demoSt "boom" 150
  exact ⟨h.1, h.2 30100 (.error "boom") (by simp [demoSt]) (by simp [demoCfg])
    (by decide)⟩

/-- The prior record of the C6 counterexample: a record whose options
mapping and category were set by an earlier registration. -/
def mergeCexPrev : NodeRec :=
  { type := "foo", category := .str "x",
    options := .obj [("category", EV.str "x")], optionsSource := .str "cat" }

/-- The later registration of the C6 counterexample: accepted with an
absent options argument (`RED.nodes.registerType("foo")`), so its options
value is `null` and its options source is empty. -/
def mergeCexEntry : Found := ⟨"foo", .nullV, ""⟩

/-- C6 counterexample: the merge overwrites the `options` field wholesale on
every registration update — a later contribution whose options are absent
replaces a previously set non-empty options mapping with the empty mapping,
refuting the claim that (module attribution apart) a later absent/empty
value never clears a previously set field.  The per-field-merged scalar
fields (here `category`) do keep their prior values. -/
theorem merge_options_cleared_counterexample :
    (mergeRecord (splitModuleName "m") mergeCexPrev mergeCexEntry).options =
      .obj [] ∧
    mergeCexPrev.options = .obj [("category", EV.str "x")] ∧
    EV.obj [] ≠ EV.obj [("category", EV.str "x")] ∧
    (mergeRecord (splitModuleName "m") mergeCexPrev mergeCexEntry).category =
      .str "x" := by
  refine ⟨rfl, rfl, ?_, rfl⟩
  intro h
  exact absurd (congrArg (fun v => match v with
    | EV.obj l => l.length
    | _ => 0) h) (by simp)

/-- When the later registration's options source is empty, a truthy prior
options source is kept (`entry.optionsSource || prev.optionsSource || ""`). -/
theorem mergeRecord_optionsSource_keep (mi : ModInfo) (prev : NodeRec)
    (en : Found) (h1 : en.optionsSource = "")
    (h2 : jsTruthy prev.optionsSource = true) :
    (mergeRecord mi prev en).optionsSource = prev.optionsSource := by
  have e : (mergeRecord mi prev en).optionsSource =
      jsOr (.str en.optionsSource) (jsOr prev.optionsSource (.str "")) := rfl
  have e2 : jsOr (EV.str "") (jsOr prev.optionsSource (EV.str "")) =
      jsOr prev.optionsSource (EV.str "") := rfl
  rw [e, h1, e2]
  unfold jsOr
  rw [if_pos h2]

/-- C6 (amended): in the registration merge, for the per-field-merged
fields (category, paletteLabel, color, icon, align, inputs, outputs,
outputLabels, defaults) a later explicit (non-nullish) value overwrites the
prior value and a later absent/nullish value keeps a previously set prior
value; `optionsSource` keeps the prior value when the later one is empty;
help/template data is preserved; module attribution fields AND the full
`options` mapping are overwritten on every registration update (`options`
wholesale, the empty mapping when the later options are absent or not an
object). -/
theorem merge_last_write_wins (mi : ModInfo) (prev : NodeRec) (en : Found) :
    ((isNullish (evGet (entryOpts en) "category") = false →
        (mergeRecord mi prev en).category = evGet (entryOpts en) "category") ∧
     (isNullish (evGet (entryOpts en) "category") = true →
        isNullish prev.category = false →
        (mergeRecord mi prev en).category = prev.category)) ∧
    ((isNullish (evGet (entryOpts en) "paletteLabel") = false →
        (mergeRecord mi prev en).paletteLabel =
          evGet (entryOpts en) "paletteLabel") ∧
     (isNullish (evGet (entryOpts en) "paletteLabel") = true →
        isNullish prev.paletteLabel = false →
        (mergeRecord mi prev en).paletteLabel = prev.paletteLabel)) ∧
    ((isNullish (evGet (entryOpts en) "color") = false →
        (mergeRecord mi prev en).color = evGet (entryOpts en) "color") ∧
     (isNullish (evGet (entryOpts en) "color") = true →
        isNullish prev.color = false →
        (mergeRecord mi prev en).color = prev.color)) ∧
    ((isNullish (evGet (entryOpts en) "icon") = false →
        (mergeRecord mi prev en).icon = evGet (entryOpts en) "icon") ∧
     (isNullish (evGet (entryOpts en) "icon") = true →
        isNullish prev.icon = false →
        (mergeRecord mi prev en).icon = prev.icon)) ∧
    ((isNullish (evGet (entryOpts en) "align") = false →
        (mergeRecord mi prev en).align = evGet (entryOpts en) "align") ∧
     (isNullish (evGet (entryOpts en) "align") = true →
        isNullish prev.align = false →
        (mergeRecord mi prev en).align = prev.align)) ∧
    ((isNullish (evGet (entryOpts en) "inputs") = false →
        (mergeRecord mi prev en).inputs = evGet (entryOpts en) "inputs") ∧
     (isNullish (evGet (entryOpts en) "inputs") = true →
        isNullish prev.inputs = false →
        (mergeRecord mi prev en).inputs = prev.inputs)) ∧
    ((isNullish (evGet (entryOpts en) "outputs") = false →
        (mergeRecord mi prev en).outputs = evGet (entryOpts en) "outputs") ∧
     (isNullish (evGet (entryOpts en) "outputs") = true →
        isNullish prev.outputs = false →
        (mergeRecord mi prev en).outputs = prev.outputs)) ∧
    ((isNullish (evGet (entryOpts en) "outputLabels") = false →
        (mergeRecord mi prev en).outputLabels =
          evGet (entryOpts en) "outputLabels") ∧
     (isNullish (evGet (entryOpts en) "outputLabels") = true →
        isNullish prev.outputLabels = false →
        (mergeRecord mi prev en).outputLabels = prev.outputLabels)) ∧
    ((isNullish (evGet (entryOpts en) "defaults") = false →
        (mergeRecord mi prev en).defaults = evGet (entryOpts en) "defaults") ∧
     (isNullish (evGet (entryOpts en) "defaults") = true →
        isNullish prev.defaults = false →
        (mergeRecord mi prev en).defaults = prev.defaults)) ∧
    ((mergeRecord mi prev en).module = .str mi.module ∧
     (mergeRecord mi prev en).modulePackage = .str mi.modulePackage ∧
     (mergeRecord mi prev en).moduleSet = setEV mi.moduleSet) ∧
    (mergeRecord mi prev en).options = entryOpts en ∧
    ((en.optionsSource ≠ "" →
        (mergeRecord mi prev en).optionsSource = .str en.optionsSource) ∧
     (en.optionsSource = "" → jsTruthy prev.optionsSource = true →
        (mergeRecord mi prev en).optionsSource = prev.optionsSource)) ∧
    ((mergeRecord mi prev en).help = prev.help ∧
     (mergeRecord mi prev en).template = prev.template ∧
     (mergeRecord mi prev en).templateFields = prev.templateFields) := by
  refine ⟨⟨?_, ?_⟩, ⟨?_, ?_⟩, ⟨?_, ?_⟩, ⟨?_, ?_⟩, ⟨?_, ?_⟩, ⟨?_, ?_⟩,
    ⟨?_, ?_⟩, ⟨?_, ?_⟩, ⟨?_, ?_⟩, ⟨rfl, rfl, rfl⟩, rfl,
    ⟨?_, mergeRecord_optionsSource_keep mi prev en⟩,
    ⟨rfl, rfl, rfl⟩⟩ <;> intros <;>
    simp [mergeRecord, jsCoalesce, jsOr, jsTruthy, *]

/-- The C6 witness record: category and paletteLabel previously set. -/
def mergeWitPrev : NodeRec :=
  { type := "foo", category := .str "x", paletteLabel := .str "pl" }

/-- The C6 witness entry: a later registration setting only the category. -/
def mergeWitEntry : Found := ⟨"foo", .obj [("category", EV.str "y")], "src"⟩

/-- C6 witness: a later explicit category overwrites the prior one while the
untouched paletteLabel keeps its prior value. -/
theorem merge_last_write_wins_witness :
    (mergeRecord (splitModuleName "m") mergeWitPrev mergeWitEntry).category =
      .str "y" ∧
    (mergeRecord (splitModuleName "m") mergeWitPrev mergeWitEntry).paletteLabel =
      .str "pl" := by
  have h := merge_last_write_wins (splitModuleName "m") mergeWitPrev mergeWitEntry
  exact ⟨h.1.1 rfl, h.2.1.2 rfl rfl⟩

/-- Discriminating literal strings, numbers and booleans among JS values
(`typeof ev` being string, number or boolean). -/
def isPrimEV : EV → Bool
  | .str _ => true
  | .num _ => true
  | .bool _ => true
  | _ => false

/-- `String(ev)` on a primitive value. -/
def primToString : EV → String
  | .str s => s
  | .num n => toString n
  | .bool b => if b then "true" else "false"
  | _ => ""

/-- On primitive values the template step yields the stringification. -/
theorem tmplStepVal_of_prim (v : EV) (h : isPrimEV v = true) :
    tmplStepVal v = some (primToString v) := by
  cases v <;> first | rfl | exact Bool.noConfusion h

/-- On non-primitive values the template step aborts. -/
theorem tmplStepVal_of_not_prim (v : EV) (h : isPrimEV v = false) :
    tmplStepVal v = none := by
  cases v <;> first | rfl | exact Bool.noConfusion h

/-- The spec-side description of a fully resolved template: the cooked
quasis interleaved with the stringified embedded values. -/
def templateSpecConcat : List (Option String) → List String → String
  | qs, [] => joinCooked qs
  | [], _ :: _ => ""
  | q :: qrest, v :: vrest =>
      (match q with | some s => s | none => "") ++ v ++
        templateSpecConcat qrest vrest

/-- One unfolding step of the template loop. -/
theorem evalAstTmpl_step (q : Option String) (qrest : List (Option String))
    (e : Ast) (erest : List Ast) (env : List (String × EV)) (src acc : String) :
    evalAstTmpl (q :: qrest) (e :: erest) env src acc =
      (match tmplStepVal (evalAst e env src) with
       | some sv => evalAstTmpl qrest erest env src ((acc ++ q.getD "") ++ sv)
       | none => none) := by
  simp only [evalAstTmpl]
  cases q <;> rfl

/-- When every embedded expression reduces to a primitive, the template loop
returns the full interleaved concatenation. -/
theorem evalAstTmpl_all_prim (exprs : List Ast) : ∀ (qs : List (Option String))
    (env : List (String × EV)) (src acc : String),
    exprs.length < qs.length →
    (∀ e ∈ exprs, isPrimEV (evalAst e env src) = true) →
    evalAstTmpl qs exprs env src acc =
      some (acc ++ templateSpecConcat qs
        (exprs.map (fun e => primToString (evalAst e env src)))) := by
  induction exprs with
  | nil =>
      intro qs env src acc hlen _
      cases qs with
      | nil => simp at hlen
      | cons q qrest =>
          have e1 : evalAstTmpl (q :: qrest) [] env src acc =
              some ((acc ++ q.getD "") ++ joinCooked qrest) := by
            simp only [evalAstTmpl]
            cases q <;> rfl
          have e2 : templateSpecConcat (q :: qrest)
              (List.map (fun e => primToString (evalAst e env src)) []) =
              q.getD "" ++ joinCooked qrest := by
            cases q <;> rfl
          rw [e1, e2, String.append_assoc]
  | cons e erest ih =>
      intro qs env src acc hlen hall
      cases qs with
      | nil => simp at hlen
      | cons q qrest =>
          have hlen2 : erest.length < qrest.length := by
            simp only [List.length_cons] at hlen
            omega
          have hprim : isPrimEV (evalAst e env src) = true :=
            hall e (List.mem_cons_self _ _)
          have hall2 : ∀ x ∈ erest, isPrimEV (evalAst x env src) = true :=
            fun x hx => hall x (List.mem_cons_of_mem _ hx)
          rw [evalAstTmpl_step, tmplStepVal_of_prim _ hprim]
          show evalAstTmpl qrest erest env src
              ((acc ++ q.getD "") ++ primToString (evalAst e env src)) = _
          rw [ih qrest env src _ hlen2 hall2]
          have e3 : templateSpecConcat (q :: qrest)
              (List.map (fun x => primToString (evalAst x env src)) (e :: erest)) =
              (q.getD "" ++ primToString (evalAst e env src)) ++
                templateSpecConcat qrest
                  (List.map (fun x => primToString (evalAst x env src)) erest) := by
            rw [List.map_cons]
            cases q <;> rfl
          rw [e3]
          simp [String.append_assoc]

/-- When some embedded expression does not reduce to a primitive, the
template loop aborts with `none` (no partial resolution). -/
theorem evalAstTmpl_abort (exprs : List Ast) : ∀ (qs : List (Option String))
    (env : List (String × EV)) (src acc : String),
    exprs.length < qs.length →
    (∃ e ∈ exprs, isPrimEV (evalAst e env src) = false) →
    evalAstTmpl qs exprs env src acc = none := by
  induction exprs with
  | nil =>
      rintro qs env src acc hlen ⟨e, he, _⟩
      exact absurd he (List.not_mem_nil e)
  | cons e erest ih =>
      intro qs env src acc hlen hex
      cases qs with
      | nil => simp at hlen
      | cons q qrest =>
          have hlen2 : erest.length < qrest.length := by
            simp only [List.length_cons] at hlen
            omega
          rw [evalAstTmpl_step]
          by_cases hp : isPrimEV (evalAst e env src) = true
          · rw [tmplStepVal_of_prim _ hp]
            show evalAstTmpl qrest erest env src _ = none
            apply ih qrest env src _ hlen2
            rcases hex with ⟨x, hx, hxf⟩
            rcases List.mem_cons.mp hx with h | h
            · subst h
              rw [hp] at hxf
              exact Bool.noConfusion hxf
            · exact ⟨x, h, hxf⟩
          · have hp' : isPrimEV (evalAst e env src) = false :=
              Bool.eq_false_iff.mpr hp
            rw [tmplStepVal_of_not_prim _ hp']

/-- C8: a template literal resolves to the concatenation of its cooked
quasis with the stringified embedded values exactly when every embedded
expression reduces to a literal string, number or boolean; if any embedded
expression does not, the entire template degrades to a single opaque
`TemplateFragment` placeholder carrying the full original source text of
the template — no partial resolution.  (`hlen` is the acorn invariant that
a template has one more quasi than embedded expressions.) -/
theorem template_all_or_nothing (qs : List (Option String)) (exprs : List Ast)
    (env : List (String × EV)) (src : String) (ps pe : Nat)
    (hlen : exprs.length < qs.length) :
    ((∀ e ∈ exprs, isPrimEV (evalAst e env src) = true) →
       evalAst (.tmpl qs exprs ps pe) env src =
         .str (templateSpecConcat qs
           (exprs.map (fun e => primToString (evalAst e env src))))) ∧
    ((∃ e ∈ exprs, isPrimEV (evalAst e env src) = false) →
       evalAst (.tmpl qs exprs ps pe) env src =
         .template (sliceSource src ps pe)) := by
  have e0 : evalAst (.tmpl qs exprs ps pe) env src =
      (match evalAstTmpl qs exprs env src "" with
       | some s => EV.str s
       | none => EV.template (sliceSource src ps pe)) := rfl
  constructor
  · intro hall
    rw [e0, evalAstTmpl_all_prim exprs qs env src "" hlen hall]
    show EV.str ("" ++ _) = _
    rw [show ∀ t : String, "" ++ t = t from fun t => rfl]
  · intro hex
    rw [e0, evalAstTmpl_abort exprs qs env src "" hlen hex]

/-- C8 witness: a template whose embedded expression resolves to the number
5 concatenates, and one embedding a call expression degrades wholesale. -/
theorem template_all_or_nothing_witness :
    evalAst (.tmpl [some "a", some "b"] [.ident "x" 3 4] 0 6)
      [("x", EV.num 5)] "" = .str "a5b" ∧
    evalAst (.tmpl [some "a", some "b"] [.callE (.ident "f" 3 4) [] 3 6] 2 13)
      [] "xy`a$ f()  b`" = .template "`a$ f()  b`" := by
  constructor
  · exact (template_all_or_nothing [some "a", some "b"] [.ident "x" 3 4]
      [("x", EV.num 5)] "" 0 6 (by decide)).1 (by decide)
  · exact (template_all_or_nothing [some "a", some "b"]
      [.callE (.ident "f" 3 4) [] 3 6] [] "xy`a$ f()  b`" 2 13 (by decide)).2
      (by decide)

/-- `cmpNats` returns `eq` exactly on equal key lists. -/
theorem cmpNats_eq_iff (as : List Nat) : ∀ bs, cmpNats as bs = .eq ↔ as = bs := by
  induction as with
  | nil =>
      intro bs
      cases bs <;> simp [cmpNats]
  | cons a arest ih =>
      intro bs
      cases bs with
      | nil => simp [cmpNats]
      | cons b brest =>
          by_cases h1 : a < b
          · simp only [cmpNats, if_pos h1]
            constructor
            · intro hc; exact Ordering.noConfusion hc
            · intro hc
              injection hc with he _
              omega
          · by_cases h2 : b < a
            · simp only [cmpNats, if_neg h1, if_pos h2]
              constructor
              · intro hc; exact Ordering.noConfusion hc
              · intro hc
                injection hc with he _
                omega
            · have hab : a = b := by omega
              subst hab
              simp only [cmpNats, if_neg h1, if_neg h2]
              rw [ih brest]
              simp

/-- `cmpNats` answers `gt` exactly when the swapped comparison answers
`lt`. -/
theorem cmpNats_gt_iff_lt (as : List Nat) : ∀ bs,
    cmpNats as bs = .gt ↔ cmpNats bs as = .lt := by
  induction as with
  | nil =>
      intro bs
      cases bs <;> simp [cmpNats]
  | cons a arest ih =>
      intro bs
      cases bs with
      | nil => simp [cmpNats]
      | cons b brest =>
          by_cases h1 : a < b
          · have h2 : ¬ b < a := by omega
            simp [cmpNats, h1, h2]
          · by_cases h2 : b < a
            · simp [cmpNats, h1, h2]
            · have hab : a = b := by omega
              subst hab
              simp [cmpNats, h1, h2, ih brest]

/-- Strict `cmpNats` comparison is transitive. -/
theorem cmpNats_lt_trans (as : List Nat) : ∀ bs cs,
    cmpNats as bs = .lt → cmpNats bs cs = .lt → cmpNats as cs = .lt := by
  induction as with
  | nil =>
      intro bs cs h1 h2
      cases cs with
      | nil =>
          cases bs with
          | nil => exact absurd h1 (by simp [cmpNats])
          | cons b bs2 => exact absurd h2 (by simp [cmpNats])
      | cons c cs2 => rfl
  | cons a arest ih =>
      intro bs cs h1 h2
      cases bs with
      | nil => exact absurd h1 (by simp [cmpNats])
      | cons b brest =>
          cases cs with
          | nil => exact absurd h2 (by simp [cmpNats])
          | cons c crest =>
              rcases Nat.lt_trichotomy a b with hab | hab | hab
              · rcases Nat.lt_trichotomy b c with hbc | hbc | hbc
                · simp only [cmpNats]
                  rw [if_pos (by omega : a < c)]
                · simp only [cmpNats]
                  rw [if_pos (by omega : a < c)]
                · have hg : cmpNats (b :: brest) (c :: crest) = .gt := by
                    simp only [cmpNats]
                    rw [if_neg (by omega : ¬ b < c), if_pos hbc]
                  rw [hg] at h2
                  exact Ordering.noConfusion h2
              · subst hab
                have h1p : cmpNats arest brest = .lt := by
                  simp only [cmpNats] at h1
                  rw [if_neg (by omega : ¬ a < a),
                    if_neg (by omega : ¬ a < a)] at h1
                  exact h1
                rcases Nat.lt_trichotomy a c with hac | hac | hac
                · simp only [cmpNats]
                  rw [if_pos hac]
                · subst hac
                  have h2p : cmpNats brest crest = .lt := by
                    simp only [cmpNats] at h2
                    rw [if_neg (by omega : ¬ a < a),
                      if_neg (by omega : ¬ a < a)] at h2
                    exact h2
                  simp only [cmpNats]
                  rw [if_neg (by omega : ¬ a < a), if_neg (by omega : ¬ a < a)]
                  exact ih brest crest h1p h2p
                · have hg : cmpNats (a :: brest) (c :: crest) = .gt := by
                    simp only [cmpNats]
                    rw [if_neg (by omega : ¬ a < c), if_pos hac]
                  rw [hg] at h2
                  exact Ordering.noConfusion h2
              · have hg : cmpNats (a :: arest) (b :: brest) = .gt := by
                  simp only [cmpNats]
                  rw [if_neg (by omega : ¬ a < b), if_pos hab]
                rw [hg] at h1
                exact Ordering.noConfusion h1

/-- The comparator answers `-1` on a primary-strength win. -/
theorem localeCompare_primary_lt (a b : String)
    (hp : cmpNats (primaryKey a) (primaryKey b) = .lt) :
    localeCompare a b = -1 := by
  unfold localeCompare
  rw [hp]

/-- The comparator answers `1` on a primary-strength loss. -/
theorem localeCompare_primary_gt (a b : String)
    (hp : cmpNats (primaryKey a) (primaryKey b) = .gt) :
    localeCompare a b = 1 := by
  unfold localeCompare
  rw [hp]

/-- On a primary tie, a tertiary win answers `-1`. -/
theorem localeCompare_eq_tert_lt (a b : String)
    (hp : cmpNats (primaryKey a) (primaryKey b) = .eq)
    (ht : cmpNats (caseKeyList a) (caseKeyList b) = .lt) :
    localeCompare a b = -1 := by
  unfold localeCompare
  rw [hp, ht]

/-- On a primary tie, a tertiary loss answers `1`. -/
theorem localeCompare_eq_tert_gt (a b : String)
    (hp : cmpNats (primaryKey a) (primaryKey b) = .eq)
    (ht : cmpNats (caseKeyList a) (caseKeyList b) = .gt) :
    localeCompare a b = 1 := by
  unfold localeCompare
  rw [hp, ht]

/-- On primary and tertiary ties the comparator answers `0`. -/
theorem localeCompare_eq_tert_eq (a b : String)
    (hp : cmpNats (primaryKey a) (primaryKey b) = .eq)
    (ht : cmpNats (caseKeyList a) (caseKeyList b) = .eq) :
    localeCompare a b = 0 := by
  unfold localeCompare
  rw [hp, ht]

/-- The comparator order is total. -/
theorem localeCompare_le_total (a b : String) :
    localeCompare a b ≤ 0 ∨ localeCompare b a ≤ 0 := by
  cases hp : cmpNats (primaryKey a) (primaryKey b) with
  | lt =>
      left
      rw [localeCompare_primary_lt a b hp]
      norm_num
  | gt =>
      right
      rw [localeCompare_primary_lt b a ((cmpNats_gt_iff_lt _ _).mp hp)]
      norm_num
  | eq =>
      have hpe : primaryKey a = primaryKey b := (cmpNats_eq_iff _ _).mp hp
      have hpe2 : cmpNats (primaryKey b) (primaryKey a) = .eq :=
        (cmpNats_eq_iff _ _).mpr hpe.symm
      cases ht : cmpNats (caseKeyList a) (caseKeyList b) with
      | lt =>
          left
          rw [localeCompare_eq_tert_lt a b hp ht]
          norm_num
      | gt =>
          right
          rw [localeCompare_eq_tert_lt b a hpe2 ((cmpNats_gt_iff_lt _ _).mp ht)]
          norm_num
      | eq =>
          left
          rw [localeCompare_eq_tert_eq a b hp ht]

/-- The comparator order is transitive. -/
theorem localeCompare_le_trans (a b c : String)
    (hab : localeCompare a b ≤ 0) (hbc : localeCompare b c ≤ 0) :
    localeCompare a c ≤ 0 := by
  cases hp1 : cmpNats (primaryKey a) (primaryKey b) with
  | gt =>
      rw [localeCompare_primary_gt a b hp1] at hab
      norm_num at hab
  | lt =>
      cases hp2 : cmpNats (primaryKey b) (primaryKey c) with
      | gt =>
          rw [localeCompare_primary_gt b c hp2] at hbc
          norm_num at hbc
      | lt =>
          rw [localeCompare_primary_lt a c (cmpNats_lt_trans _ _ _ hp1 hp2)]
          norm_num
      | eq =>
          have he : primaryKey b = primaryKey c := (cmpNats_eq_iff _ _).mp hp2
          rw [localeCompare_primary_lt a c (he ▸ hp1)]
          norm_num
  | eq =>
      have he1 : primaryKey a = primaryKey b := (cmpNats_eq_iff _ _).mp hp1
      cases hp2 : cmpNats (primaryKey b) (primaryKey c) with
      | gt =>
          rw [localeCompare_primary_gt b c hp2] at hbc
          norm_num at hbc
      | lt =>
          rw [localeCompare_primary_lt a c (he1.symm ▸ hp2)]
          norm_num
      | eq =>
          have he2 : primaryKey b = primaryKey c := (cmpNats_eq_iff _ _).mp hp2
          have hpac : cmpNats (primaryKey a) (primaryKey c) = .eq :=
            (cmpNats_eq_iff _ _).mpr (he1.trans he2)
          cases ht1 : cmpNats (caseKeyList a) (caseKeyList b) with
          | gt =>
              rw [localeCompare_eq_tert_gt a b hp1 ht1] at hab
              norm_num at hab
          | lt =>
              cases ht2 : cmpNats (caseKeyList b) (caseKeyList c) with
              | gt =>
                  rw [localeCompare_eq_tert_gt b c hp2 ht2] at hbc
                  norm_num at hbc
              | lt =>
                  rw [localeCompare_eq_tert_lt a c hpac
                    (cmpNats_lt_trans _ _ _ ht1 ht2)]
                  norm_num
              | eq =>
                  have hte : caseKeyList b = caseKeyList c :=
                    (cmpNats_eq_iff _ _).mp ht2
                  rw [localeCompare_eq_tert_lt a c hpac (hte ▸ ht1)]
                  norm_num
          | eq =>
              have hte1 : caseKeyList a = caseKeyList b :=
                (cmpNats_eq_iff _ _).mp ht1
              cases ht2 : cmpNats (caseKeyList b) (caseKeyList c) with
              | gt =>
                  rw [localeCompare_eq_tert_gt b c hp2 ht2] at hbc
                  norm_num at hbc
              | lt =>
                  rw [localeCompare_eq_tert_lt a c hpac (hte1.symm ▸ ht2)]
                  norm_num
              | eq =>
                  have hte2 : caseKeyList b = caseKeyList c :=
                    (cmpNats_eq_iff _ _).mp ht2
                  rw [localeCompare_eq_tert_eq a c hpac
                    ((cmpNats_eq_iff _ _).mpr (hte1.trans hte2))]

instance : IsTotal NodeRec nodeLe :=
  ⟨fun a b => localeCompare_le_total a.type b.type⟩

instance : IsTrans NodeRec nodeLe :=
  ⟨fun a b c hab hbc => localeCompare_le_trans a.type b.type c.type hab hbc⟩

/-- The source text of the C9 counterexample: two direct registrations
whose type keys differ in letter case. -/
def caseDemoSrc : String :=
  "RED.nodes.registerType(\"Foo\"); RED.nodes.registerType(\"bar\");"

/-- The registration call for `"Foo"`. -/
def caseDemoFoo : Ast :=
  .callE (.memberE (.memberE (.ident "RED" 0 3) (.ident "nodes" 4 9) 0 9)
      (.ident "registerType" 10 22) 0 22)
    [.lit (.str "Foo") 23 28] 0 29

/-- The registration call for `"bar"`. -/
def caseDemoBar : Ast :=
  .callE (.memberE (.memberE (.ident "RED" 31 34) (.ident "nodes" 35 40) 31 40)
      (.ident "registerType" 41 53) 31 53)
    [.lit (.str "bar") 54 59] 31 60

/-- The mixed-case build input of the C9 counterexample. -/
def caseDemoModule : ModuleB :=
  { name := "m", helps := [], templates := []
    scripts := [.parsed [] [caseDemoFoo, caseDemoBar] caseDemoSrc] }

/-- C9 counterexample: on a build whose type keys mix letter case the
program's comparator (`localeCompare`, case-insensitive at primary
strength) puts `"bar"` before `"Foo"`, and `"bar" ≤ "Foo"` is false in
code-unit lexicographic order — so the output node list is NOT sorted in
ascending lexicographic order as claimed. -/
theorem build_not_lexicographically_sorted :
    (parseNodesHtml [caseDemoModule] false).nodes.map (fun r => r.type) =
      ["bar", "Foo"] ∧
    lexLe "bar" "Foo" = false ∧
    ¬ List.Chain' (fun a b : NodeRec => lexLe a.type b.type = true)
        (parseNodesHtml [caseDemoModule] false).nodes := by
  refine ⟨rfl, rfl, ?_⟩
  intro h
  have hm : (parseNodesHtml [caseDemoModule] false).nodes.map (fun r => r.type) =
      ["bar", "Foo"] := rfl
  cases hn : (parseNodesHtml [caseDemoModule] false).nodes with
  | nil =>
      rw [hn] at hm
      have hlen := congrArg List.length hm
      simp only [List.length_map, List.length_cons, List.length_nil] at hlen
      omega
  | cons r1 rest =>
      cases rest with
      | nil =>
          rw [hn] at hm
          have hlen := congrArg List.length hm
          simp only [List.length_map, List.length_cons, List.length_nil] at hlen
          omega
      | cons r2 rest2 =>
          cases rest2 with
          | nil =>
              rw [hn] at hm h
              simp only [List.map_cons, List.map_nil] at hm
              injection hm with ha hm2
              injection hm2 with hb _
              have hrel : lexLe r1.type r2.type = true :=
                (List.chain'_cons.mp h).1
              rw [ha, hb] at hrel
              rw [show lexLe "bar" "Foo" = false from rfl] at hrel
              exact Bool.noConfusion hrel
          | cons r3 rest3 =>
              rw [hn] at hm
              have hlen := congrArg List.length hm
              simp only [List.length_map, List.length_cons, List.length_nil]
                at hlen
              omega

/-- C9 (amended): the final node list of a build is sorted ascending by the
sort comparator's order — `localeCompare` collation, under which type keys
compare case-insensitively at primary strength — i.e. every adjacent pair
satisfies `localeCompare earlier.type later.type ≤ 0`.  This coincides with
code-unit lexicographic order on same-case keys, but not on mixed-case
keys. -/
theorem parseNodesHtml_nodes_sorted_by_comparator (modules : List ModuleB)
    (verbose : Bool) :
    List.Chain' nodeLe (parseNodesHtml modules verbose).nodes := by
  have hsorted :
      List.Sorted nodeLe
        (List.insertionSort nodeLe
          ((modules.foldl processModule ([], [])).1.map (fun p => p.2))) :=
    List.sorted_insertionSort nodeLe _
  exact List.Pairwise.chain' hsorted

/-- `Number.isFinite` on a JS number. -/
def isFiniteJS : JSNum → Bool
  | .finite _ => true
  | _ => false

/-- C10: for a non-finite `limit` (`NaN`, `+Infinity`, `-Infinity`) the
search result is truncated to the default of 25 entries — the `[1, 200]`
clamp is not applied; only finite limits are clamped into `[1, 200]`. -/
theorem search_limit_resolution (c : CacheState) (q : String) (co : Bool)
    (mo ca : Option String) :
    (∀ l : JSNum, isFiniteJS l = false → lowerStr (trimStr q) ≠ "" →
       searchImpl c ⟨q, co, mo, ca, l⟩ =
         ((searchRanked c (lowerStr (trimStr q)) co mo ca).take 25).map
           (fun m => toHit m.1)) ∧
    (∀ n : Int, lowerStr (trimStr q) ≠ "" →
       searchImpl c ⟨q, co, mo, ca, .finite n⟩ =
         ((searchRanked c (lowerStr (trimStr q)) co mo ca).take
           ((max 1 (min 200 n)).toNat)).map (fun m => toHit m.1) ∧
       1 ≤ (max 1 (min 200 n)).toNat ∧ (max 1 (min 200 n)).toNat ≤ 200) := by
  constructor
  · intro l hl hq
    cases l with
    | finite n => exact Bool.noConfusion hl
    | nan =>
        simp only [searchImpl]
        rw [if_neg hq]
    | posInf =>
        simp only [searchImpl]
        rw [if_neg hq]
    | negInf =>
        simp only [searchImpl]
        rw [if_neg hq]
  · intro n hq
    have hb1 : (1 : Int) ≤ max 1 (min 200 n) := le_max_left _ _
    have hb2 : max 1 (min 200 n) ≤ 200 := max_le (by norm_num) (min_le_left _ _)
    refine ⟨?_, by omega, by omega⟩
    simp only [searchImpl]
    rw [if_neg hq]

/-- The one-node snapshot of the C10 witness. -/
def searchDemoSt : CacheState :=
  ⟨1000, [], [⟨{ type := "bar", category := .str "group" }, false⟩], [], none⟩

/-- C10 witness: a `NaN` limit leaves the single match in place (truncation
to the default 25). -/
theorem search_limit_resolution_witness :
    searchImpl searchDemoSt ⟨"bar", false, none, none, .nan⟩ =
      [{ type := "bar", category := .str "group", paletteLabel := .nullV,
         module := .nullV, modulePackage := .nullV, isCustom := false,
         snippet := "" }] := by
  have h := (search_limit_resolution searchDemoSt "bar" false none none).1
    JSNum.nan rfl (by decide)
  rw [h]
  rfl
